import Mathlib

/-
  Verification of the VinuChain lists validation core.

  This file gives a shallow embedding, in Lean 4, of the input-validation
  pipeline of the repository: safe JSON parsing (scripts/utils/safe-json.js),
  Ethereum address and EIP-55 checksum validation (address-validator),
  SSRF-safe URL validation (scripts/utils/url-validator.js), path safety
  (scripts/utils/file-utils.js), ABI structural validation
  (scripts/validators/abi-validator.js) and Solidity source validation
  (solidity-validator), together with theorems settling the frozen claims.

  JavaScript strings are modelled as lists of characters (the inputs of
  interest are ASCII, where Lean Char operations coincide with the
  JavaScript ones).  JavaScript runtime / library functions the source
  calls (JSON.parse with a reviver, new URL, node path.join and
  path.resolve, the ethers getAddress function with its keccak-256
  checksum) are embedded faithfully from their documented behaviour, as
  noted at each definition.
-/

set_option maxRecDepth 20000

/-- JavaScript strings are modelled as lists of characters. -/
abbrev JStr := List Char

/-- Turn a Lean string literal into the JStr model. -/
def strOf (s : String) : JStr := s.data

/-- ASCII lower-casing of one character, the behaviour of
String.prototype.toLowerCase on the ASCII range. -/
def jsToLowerChar (c : Char) : Char := c.toLower

/-- ASCII upper-casing of one character, the behaviour of
String.prototype.toUpperCase on the ASCII range. -/
def jsToUpperChar (c : Char) : Char := c.toUpper

/-- Model of String.prototype.toLowerCase (ASCII range). -/
def jlower (s : JStr) : JStr := s.map jsToLowerChar

/-- Model of String.prototype.includes: substring containment. -/
def jincludes : JStr → JStr → Bool
  | [], needle => needle.isEmpty
  | c :: t, needle => needle.isPrefixOf (c :: t) || jincludes t needle

/-- Decimal rendering of a natural number, as JavaScript number-to-string
conversion produces for small integers. -/
def natToJStr (n : Nat) : JStr := (Nat.repr n).data

/-- The JavaScript regular-expression whitespace class backslash-s
(ASCII whitespace plus the Unicode space characters). -/
def jsIsSpace (c : Char) : Bool :=
  let n := c.toNat
  (9 ≤ n && n ≤ 13) || n == 32 || n == 160 || n == 0x1680 ||
  (0x2000 ≤ n && n ≤ 0x200a) || n == 0x2028 || n == 0x2029 ||
  n == 0x202f || n == 0x205f || n == 0x3000 || n == 0xfeff

/-- Hexadecimal digit test, the character class [a-fA-F0-9]. -/
def isHexDigitChar (c : Char) : Bool :=
  ( '0' ≤ c && c ≤ '9') || ( 'a' ≤ c && c ≤ 'f') || ( 'A' ≤ c && c ≤ 'F')

/-- Decimal digit test, the character class [0-9]. -/
def isDigitChar (c : Char) : Bool := '0' ≤ c && c ≤ '9'

/-- The character class [a-zA-Z0-9_] of word characters. -/
def isWordChar (c : Char) : Bool :=
  ( 'a' ≤ c && c ≤ 'z') || ( 'A' ≤ c && c ≤ 'Z') || isDigitChar c || c == '_'

/-- First character class [a-zA-Z_] of the identifier pattern. -/
def isIdentStartChar (c : Char) : Bool :=
  ( 'a' ≤ c && c ≤ 'z') || ( 'A' ≤ c && c ≤ 'Z') || c == '_'

/-- A C0 control character or DEL, the class [\x00-\x1F\x7F]. -/
def isControlChar (c : Char) : Bool := c.toNat ≤ 31 || c.toNat == 127

/-- The uniform validation-result record every public operation of the
core returns.  JavaScript result objects carry an optional error string,
an optional aggregated errors array (validateURLs), optional warnings, an
optional checksummed address and an optional constructed path; absent
fields are modelled as none. -/
structure VResult where
  valid : Bool
  error : Option JStr := none
  errors : Option (List (Option JStr)) := none
  warnings : Option (List JStr) := none
  checksummed : Option JStr := none
  path : Option JStr := none
deriving DecidableEq

/-- A parsed JSON tree.  Numbers are modelled as integers: no claim in
scope depends on non-integral numeric values. -/
inductive Json where
  | null : Json
  | bool : Bool → Json
  | num : Int → Json
  | str : JStr → Json
  | arr : List Json → Json
  | obj : List (JStr × Json) → Json

/-- Property lookup on a JavaScript object built by JSON.parse: a later
duplicate key overwrites an earlier one, so the last binding wins. -/
def lookupLast (entries : List (JStr × Json)) (key : JStr) : Option Json :=
  List.foldl (fun acc e => if e.1 = key then some e.2 else acc) none entries

/-- Field access obj[key]; undefined (none) on non-objects and missing
keys. -/
def Json.getField : Json → JStr → Option Json
  | .obj entries, key => lookupLast entries key
  | _, _ => none

/-- JavaScript truthiness of a field-access result: undefined, null,
false, 0 and the empty string are falsy. -/
def jsTruthy : Option Json → Bool
  | none => false
  | some .null => false
  | some (.bool b) => b
  | some (.num n) => n != 0
  | some (.str s) => !s.isEmpty
  | some (.arr _) => true
  | some (.obj _) => true

/-- Whether the value is a JavaScript string. -/
def isStringValue : Option Json → Bool
  | some (.str _) => true
  | _ => false

/-! ## Safe-Parse (scripts/utils/safe-json.js) -/

/-- The three prototype-pollution keys blocked by safeParse. -/
def dangerousKeys : List JStr :=
  [strOf "__proto__", strOf "constructor", strOf "prototype"]

mutual
/-- The reviver pass of safeParse: JSON.parse(text, reviver) applies the
reviver bottom-up to the raw parse tree and, because the reviver returns
undefined exactly for the keys __proto__, constructor and prototype,
those keys are deleted from their holder at every nesting level.  Array
elements have numeric keys and are never dropped. -/
def revive : Json → Json
  | .null => .null
  | .bool b => .bool b
  | .num n => .num n
  | .str s => .str s
  | .arr items => .arr (reviveList items)
  | .obj entries => .obj (reviveEntries entries)

/-- Reviver pass over the elements of an array. -/
def reviveList : List Json → List Json
  | [] => []
  | v :: rest => revive v :: reviveList rest

/-- Reviver pass over the entries of an object: blocked keys are dropped,
other values are revived recursively. -/
def reviveEntries : List (JStr × Json) → List (JStr × Json)
  | [] => []
  | (k, v) :: rest =>
    if k ∈ dangerousKeys then reviveEntries rest
    else (k, revive v) :: reviveEntries rest
end

/-- The defensive top-level delete pass of safeParse (delete of the three
keys on the returned object when it is a non-null object). -/
def stripTopLevel : Json → Json
  | .obj entries => .obj (entries.filter (fun e => !decide (e.1 ∈ dangerousKeys)))
  | v => v

/-- safeParse, as a function of the raw parse tree of the accepted JSON
text: the reviver pass followed by the defensive top-level delete pass. -/
def safeParse (parsed : Json) : Json := stripTopLevel (revive parsed)

mutual
/-- Whether a tree contains a blocked key at any nesting level. -/
def deepHasDangerousKey : Json → Bool
  | .arr items => listHasDangerousKey items
  | .obj entries => entriesHasDangerousKey entries
  | _ => false

/-- Blocked-key search over the elements of an array. -/
def listHasDangerousKey : List Json → Bool
  | [] => false
  | v :: rest => deepHasDangerousKey v || listHasDangerousKey rest

/-- Blocked-key search over the entries of an object. -/
def entriesHasDangerousKey : List (JStr × Json) → Bool
  | [] => false
  | (k, v) :: rest =>
    decide (k ∈ dangerousKeys) || deepHasDangerousKey v || entriesHasDangerousKey rest
end

mutual
theorem revive_no_dangerous (j : Json) : deepHasDangerousKey (revive j) = false := by
  cases j with
  | null => rfl
  | bool b => rfl
  | num n => rfl
  | str s => rfl
  | arr items =>
      have h := reviveList_no_dangerous items
      simp [revive, deepHasDangerousKey, h]
  | obj entries =>
      have h := reviveEntries_no_dangerous entries
      simp [revive, deepHasDangerousKey, h]

theorem reviveList_no_dangerous (l : List Json) :
    listHasDangerousKey (reviveList l) = false := by
  cases l with
  | nil => rfl
  | cons v rest =>
      have h1 := revive_no_dangerous v
      have h2 := reviveList_no_dangerous rest
      simp [reviveList, listHasDangerousKey, h1, h2]

theorem reviveEntries_no_dangerous (l : List (JStr × Json)) :
    entriesHasDangerousKey (reviveEntries l) = false := by
  cases l with
  | nil => rfl
  | cons e rest =>
      have h2 := reviveEntries_no_dangerous rest
      by_cases hk : e.1 ∈ dangerousKeys
      · simp [reviveEntries, hk, h2]
      · have h1 := revive_no_dangerous e.2
        simp [reviveEntries, hk, entriesHasDangerousKey, h1, h2]
end

/-- Stripping the top level of a dangerous-key-free tree keeps it free. -/
theorem stripTopLevel_no_dangerous (j : Json)
    (h : deepHasDangerousKey j = false) :
    deepHasDangerousKey (stripTopLevel j) = false := by
  cases j with
  | obj entries =>
      simp only [stripTopLevel]
      simp only [deepHasDangerousKey] at h ⊢
      induction entries with
      | nil => rfl
      | cons e rest ih =>
          simp only [entriesHasDangerousKey, Bool.or_eq_false_iff] at h
          by_cases hk : e.1 ∈ dangerousKeys
          · simp [List.filter, hk]
            exact ih h.2
          · simp [List.filter, hk, entriesHasDangerousKey, h.1.1, h.1.2]
            exact ih h.2
  | null => exact h
  | bool b => exact h
  | num n => exact h
  | str s => exact h
  | arr items => exact h

/-- The raw parse tree of the attack payload from the specification. -/
def pollutionPayload : Json :=
  Json.obj [(strOf "__proto__", Json.obj [(strOf "polluted", Json.bool true)])]

/-- Claim C1: for every JSON tree produced from a text accepted by
safeParse, the result of safeParse contains no key equal to __proto__,
constructor or prototype at any nesting level, and on the payload tree of
the attack text the result is the empty object, which exhibits neither the
injected polluted property nor a __proto__ property. -/
theorem c1_safeParse_blocks_dangerous_keys :
    (∀ t : Json, deepHasDangerousKey (safeParse t) = false)
    ∧ safeParse pollutionPayload = Json.obj []
    ∧ (safeParse pollutionPayload).getField (strOf "polluted") = none
    ∧ (safeParse pollutionPayload).getField (strOf "__proto__") = none := by
  refine ⟨fun t => stripTopLevel_no_dangerous _ (revive_no_dangerous t), ?_, ?_, ?_⟩
  · simp [safeParse, pollutionPayload, revive, reviveEntries, dangerousKeys,
      stripTopLevel, strOf]
  · simp [safeParse, pollutionPayload, revive, reviveEntries, dangerousKeys,
      stripTopLevel, strOf, Json.getField, lookupLast]
  · simp [safeParse, pollutionPayload, revive, reviveEntries, dangerousKeys,
      stripTopLevel, strOf, Json.getField, lookupLast]

/-! ## Keccak-256 (the hash behind the ethers getAddress EIP-55 checksum) -/

/-- The 64-bit mask 2 to the 64 minus 1; lanes are naturals kept below
2 to the 64. -/
def M64 : Nat := 18446744073709551615

/-- Left rotation of a 64-bit lane by n bits (0 < n < 64 at every use). -/
def rotl64 (x n : Nat) : Nat := ((x <<< n) ||| (x >>> (64 - n))) &&& M64

/-- The 24 Keccak round constants. -/
def keccakRC : List Nat :=
  [0x0000000000000001,
   0x0000000000008082,
   0x800000000000808a,
   0x8000000080008000,
   0x000000000000808b,
   0x0000000080000001,
   0x8000000080008081,
   0x8000000000008009,
   0x000000000000008a,
   0x0000000000000088,
   0x0000000080008009,
   0x000000008000000a,
   0x000000008000808b,
   0x800000000000008b,
   0x8000000000008089,
   0x8000000000008003,
   0x8000000000008002,
   0x8000000000000080,
   0x000000000000800a,
   0x800000008000000a,
   0x8000000080008081,
   0x8000000000008080,
   0x0000000080000001,
   0x8000000080008008]

/-- The Keccak rotation offsets, one row per plane y, the entry for the
state lane x + 5 y sitting at row y, column x. -/
def keccakRotRows : List (List Nat) :=
  [[0, 1, 62, 28, 27],
   [36, 44, 6, 55, 20],
   [3, 10, 43, 25, 39],
   [41, 45, 15, 21, 8],
   [18, 2, 61, 56, 14]]

/-- The Keccak rotation offsets, flattened at index x + 5 y. -/
def keccakRot : List Nat := keccakRotRows.flatten

/-- Lane access in a 25-lane state, index x + 5 y. -/
def lane (st : List Nat) (i : Nat) : Nat := st.getD i 0

/-- The theta step of the Keccak round function. -/
def keccakTheta (A : List Nat) : List Nat :=
  let C := (List.range 5).map (fun x =>
    lane A x ^^^ lane A (x + 5) ^^^ lane A (x + 10) ^^^ lane A (x + 15) ^^^ lane A (x + 20))
  let D := (List.range 5).map (fun x =>
    C.getD ((x + 4) % 5) 0 ^^^ rotl64 (C.getD ((x + 1) % 5) 0) 1)
  (List.range 25).map (fun i => lane A i ^^^ D.getD (i % 5) 0)

/-- The combined rho and pi steps: the output lane at (xp, yp) is the
rotated input lane at ((xp + 3 yp) mod 5, xp). -/
def keccakRhoPi (A : List Nat) : List Nat :=
  (List.range 25).map (fun j =>
    let xp := j % 5
    let yp := j / 5
    let src := (xp + 3 * yp) % 5 + 5 * xp
    rotl64 (lane A src) (keccakRot.getD src 0))

/-- The chi step of the Keccak round function. -/
def keccakChi (B : List Nat) : List Nat :=
  (List.range 25).map (fun j =>
    let x := j % 5
    let y := j / 5
    lane B j ^^^ ((lane B ((x + 1) % 5 + 5 * y) ^^^ M64) &&& lane B ((x + 2) % 5 + 5 * y)))

/-- The iota step: the round constant enters lane 0. -/
def keccakIota (rc : Nat) (A : List Nat) : List Nat :=
  match A with
  | [] => []
  | a0 :: rest => (a0 ^^^ rc) :: rest

/-- The Keccak-f[1600] permutation: 24 rounds of theta, rho-pi, chi and
iota. -/
def keccakF (A : List Nat) : List Nat :=
  List.foldl (fun st rc => keccakIota rc (keccakChi (keccakRhoPi (keccakTheta st)))) A keccakRC

/-- Keccak multi-rate padding for rate 136 (the pre-SHA3 0x01 ... 0x80
padding Ethereum uses). -/
def keccakPad (msg : List Nat) : List Nat :=
  let padLen := 136 - msg.length % 136
  msg ++ (if padLen = 1 then [0x81]
          else 0x01 :: (List.replicate (padLen - 2) 0 ++ [0x80]))

/-- A 64-bit lane from up to eight little-endian bytes. -/
def laneOfBytes (bs : List Nat) : Nat := List.foldr (fun b acc => b + 256 * acc) 0 bs

/-- The 17 rate lanes of one 136-byte block. -/
def bytesToLanes (block : List Nat) : List Nat :=
  (List.range 17).map (fun i => laneOfBytes ((block.drop (8 * i)).take 8))

/-- Xor a block of rate lanes into the state. -/
def xorInto (st lanes : List Nat) : List Nat :=
  (List.range 25).map (fun i => lane st i ^^^ lanes.getD i 0)

/-- Absorb the padded message block by block; the fuel argument is an
upper bound on the number of blocks and is always supplied large enough. -/
def keccakAbsorb : Nat → List Nat → List Nat → List Nat
  | 0, st, _ => st
  | _ + 1, st, [] => st
  | fuel + 1, st, bytes =>
      keccakAbsorb fuel (keccakF (xorInto st (bytesToLanes (bytes.take 136)))) (bytes.drop 136)

/-- Squeeze the first 32 bytes out of the state, little-endian per lane. -/
def keccakSqueeze (st : List Nat) : List Nat :=
  (List.range 32).map (fun i => (lane st (i / 8) >>> (8 * (i % 8))) &&& 255)

/-- Keccak-256 of a byte sequence. -/
def keccak256 (msg : List Nat) : List Nat :=
  keccakSqueeze (keccakAbsorb (msg.length + 136) (List.replicate 25 0) (keccakPad msg))

/-- Sanity: the Keccak-256 of the empty message is the well-known
Ethereum empty hash c5d246...85a470. -/
theorem keccak256_empty_vector :
    keccak256 [] =
    [197, 210, 70, 1, 134, 247, 35, 60, 146, 126, 125, 178, 220, 199, 3, 192,
     229, 0, 182, 83, 202, 130, 39, 59, 123, 250, 216, 4, 93, 133, 164, 112] := by
  decide

/-! ## Address-Validator (address-validator.js together with ethers getAddress) -/

/-- ADDRESS_LENGTH from constants.js: 0x plus 40 hex characters. -/
def ADDRESS_LENGTH : Nat := 42

/-- The all-zero address rejected by validateEIP55Checksum. -/
def zeroAddress : JStr := strOf "0x0000000000000000000000000000000000000000"

/-- isValidAddressFormat: length exactly 42 and the anchored pattern
0x followed by 40 hex characters.  Inputs are modelled as strings; the
typeof guard of the source is outside the model. -/
def isValidAddressFormat (address : JStr) : Bool :=
  address.length == ADDRESS_LENGTH &&
  address.take 2 == strOf "0x" &&
  (address.drop 2).all isHexDigitChar

/-- The ethers getChecksumAddress: lower-case the address, keccak-256 the
ascii bytes of its 40 hex characters, and upper-case every character whose
corresponding hash nibble is at least 8 (digits are unchanged by
upper-casing). -/
def getChecksumAddress (address : JStr) : JStr :=
  let lower := (jlower address).drop 2
  let hashed := keccak256 (lower.map Char.toNat)
  let chars := (List.range 40).map (fun i =>
    let c := lower.getD i ' '
    let b := hashed.getD (i / 2) 0
    let nib := if i % 2 == 0 then b / 16 else b % 16
    if 8 ≤ nib then jsToUpperChar c else c)
  strOf "0x" ++ chars

/-- The anchored format test of ethers getAddress: (0x)? followed by
exactly 40 hex characters. -/
def ethersAddrFormat (a : JStr) : Bool :=
  (a.take 2 == strOf "0x" && (a.drop 2).length == 40 && (a.drop 2).all isHexDigitChar) ||
  (a.length == 40 && a.all isHexDigitChar)

/-- The mixed-case test of ethers getAddress, the regular expression
([A-F].*[a-f])|([a-f].*[A-F]): an upper-case and a lower-case hex letter
both occur somewhere in the string. -/
def hasMixedHexCase (s : JStr) : Bool :=
  s.any (fun c => 'A' ≤ c && c ≤ 'F') && s.any (fun c => 'a' ≤ c && c ≤ 'f')

/-- The ethers getAddress function on 0x-form inputs: computes the
canonical checksum rendering of the lower-cased address, and throws
(modelled as Except.error) when the input is mixed-case and differs from
that rendering.  The thrown message is modelled by its stable text
"bad address checksum"; the real ethers error appends diagnostic metadata
quoting the input value, never the expected rendering.  The ICAP branch of
ethers is unreachable here because the caller checks isValidAddressFormat
first. -/
def getAddress (address : JStr) : Except JStr JStr :=
  if ethersAddrFormat address then
    let addr := if address.take 2 == strOf "0x" then address else strOf "0x" ++ address
    let result := getChecksumAddress addr
    if hasMixedHexCase address && result != addr then
      Except.error (strOf "bad address checksum")
    else Except.ok result
  else Except.error (strOf "invalid address")

/-- validateEIP55Checksum from address-validator.js: format check, zero
address rejection, then comparison against the ethers checksum rendering,
with the thrown-error branch caught and reported. -/
def validateEIP55Checksum (address : JStr) (context : JStr) : VResult :=
  if !isValidAddressFormat address then
    { valid := false
      error := some (strOf "Invalid address format for " ++ context ++
        strOf ": must be 0x + 40 hex characters") }
  else if address = zeroAddress then
    { valid := false
      error := some (strOf "Zero address not allowed for " ++ context) }
  else
    match getAddress address with
    | .ok checksummed =>
        if address ≠ checksummed then
          { valid := false
            checksummed := some checksummed
            error := some (strOf "Invalid EIP-55 checksum for " ++ context ++
              strOf ": should be " ++ checksummed) }
        else { valid := true, checksummed := some checksummed }
    | .error msg =>
        { valid := false
          error := some (strOf "Invalid address for " ++ context ++ strOf ": " ++ msg) }

/-- A format-valid address passes the ethers format test. -/
theorem ethersFormat_of_valid (a : JStr) (h : isValidAddressFormat a = true) :
    ethersAddrFormat a = true ∧ (a.take 2 == strOf "0x") = true := by
  simp only [isValidAddressFormat, Bool.and_eq_true, beq_iff_eq] at h
  obtain ⟨⟨hlen, htake⟩, hhex⟩ := h
  refine ⟨?_, by simp [htake]⟩
  simp [ethersAddrFormat, htake, hhex, List.length_drop, hlen, ADDRESS_LENGTH]

/-- Claim C3 (amended): for every format-valid address other than the
all-zero address, validateEIP55Checksum is valid exactly when the address
equals its own EIP-55 canonical rendering; the all-zero address is always
invalid with the zero-address-specific message, even though it equals its
own canonical rendering. -/
theorem c3_checksum_valid_iff_canonical (a ctx : JStr)
    (hfmt : isValidAddressFormat a = true) (hnz : a ≠ zeroAddress) :
    ((validateEIP55Checksum a ctx).valid = true ↔ a = getChecksumAddress a)
    ∧ (validateEIP55Checksum zeroAddress ctx).valid = false
    ∧ (validateEIP55Checksum zeroAddress ctx).error =
        some (strOf "Zero address not allowed for " ++ ctx) := by
  obtain ⟨hef, htake⟩ := ethersFormat_of_valid a hfmt
  refine ⟨?_, ?_, ?_⟩
  · unfold validateEIP55Checksum getAddress
    rw [hfmt, hef, htake]
    simp only [Bool.not_true, Bool.false_eq_true, if_false, if_true]
    rw [if_neg hnz]
    by_cases hmix : (hasMixedHexCase a && (getChecksumAddress a != a)) = true
    · rw [if_pos hmix]
      simp only [Bool.and_eq_true, bne_iff_ne] at hmix
      constructor
      · intro h; simp at h
      · intro h; exact absurd h.symm hmix.2
    · rw [if_neg hmix]
      by_cases heq : a = getChecksumAddress a
      · simp [← heq]
      · simp [heq]
  · simp [validateEIP55Checksum, (by decide : isValidAddressFormat zeroAddress = true)]
  · simp [validateEIP55Checksum, (by decide : isValidAddressFormat zeroAddress = true)]

/-- Witness for C3 at the canonically checksummed address
0x00c1E515EA9579856304198EFb15f525A0bb50f6 used in the repository tests. -/
theorem c3_checksum_valid_iff_canonical_witness :
    isValidAddressFormat (strOf "0x00c1E515EA9579856304198EFb15f525A0bb50f6") = true
    ∧ strOf "0x00c1E515EA9579856304198EFb15f525A0bb50f6" ≠ zeroAddress
    ∧ ((validateEIP55Checksum (strOf "0x00c1E515EA9579856304198EFb15f525A0bb50f6")
          (strOf "token")).valid = true
        ↔ strOf "0x00c1E515EA9579856304198EFb15f525A0bb50f6" =
            getChecksumAddress (strOf "0x00c1E515EA9579856304198EFb15f525A0bb50f6")) :=
  ⟨by decide, by decide,
   (c3_checksum_valid_iff_canonical (strOf "0x00c1E515EA9579856304198EFb15f525A0bb50f6")
     (strOf "token") (by decide) (by decide)).1⟩

/-- Counterexample to C3 as stated: the all-zero address is format-valid
and equal to its own EIP-55 canonical rendering (no letter to upper-case),
yet validateEIP55Checksum rejects it, so the unrestricted iff of the claim
fails at the zero address. -/
theorem c3_counterexample :
    ¬ (∀ a ctx : JStr, isValidAddressFormat a = true →
        ((validateEIP55Checksum a ctx).valid = true ↔ a = getChecksumAddress a)) := by
  intro h
  have h2 := (h zeroAddress (strOf "address") (by decide)).2 (by decide)
  exact absurd h2 (by decide)

/-- Claim C4 (amended): a format-valid, non-zero address differing from
its canonical EIP-55 rendering is always rejected (never silently
corrected), and when the input is not mixed-case (so the ethers call does
not throw) the error names the expected checksummed form; a mixed-case
mismatch is rejected through the caught ethers checksum error instead. -/
theorem c4_checksum_mismatch_rejected (a ctx : JStr)
    (hfmt : isValidAddressFormat a = true) (hnz : a ≠ zeroAddress)
    (hdiff : a ≠ getChecksumAddress a) :
    (validateEIP55Checksum a ctx).valid = false
    ∧ (hasMixedHexCase a = false →
        (validateEIP55Checksum a ctx).error =
          some (strOf "Invalid EIP-55 checksum for " ++ ctx ++ strOf ": should be " ++
            getChecksumAddress a)
        ∧ (validateEIP55Checksum a ctx).checksummed = some (getChecksumAddress a)) := by
  obtain ⟨hef, htake⟩ := ethersFormat_of_valid a hfmt
  have hred : validateEIP55Checksum a ctx =
      (match getAddress a with
        | .ok checksummed =>
            if a ≠ checksummed then
              { valid := false
                checksummed := some checksummed
                error := some (strOf "Invalid EIP-55 checksum for " ++ ctx ++
                  strOf ": should be " ++ checksummed) }
            else { valid := true, checksummed := some checksummed }
        | .error msg =>
            { valid := false
              error := some (strOf "Invalid address for " ++ ctx ++ strOf ": " ++ msg) }) := by
    unfold validateEIP55Checksum
    rw [hfmt]
    simp only [Bool.not_true, Bool.false_eq_true, if_false]
    rw [if_neg hnz]
  constructor
  · rw [hred]
    unfold getAddress
    rw [hef, htake]
    simp only [Bool.false_eq_true, if_false, if_true]
    by_cases hmix : (hasMixedHexCase a && (getChecksumAddress a != a)) = true
    · rw [if_pos hmix]
    · rw [if_neg hmix]
      simp [hdiff]
  · intro hnomix
    rw [hred]
    unfold getAddress
    rw [hef, htake]
    simp only [Bool.false_eq_true, if_false, if_true]
    rw [if_neg (by simp [hnomix])]
    simp [hdiff]

/-- Witness for C4 at the all-lower-case rendering of the repository test
address: it is rejected and the error names the expected checksummed
form. -/
theorem c4_checksum_mismatch_rejected_witness :
    (validateEIP55Checksum (strOf "0x00c1e515ea9579856304198efb15f525a0bb50f6")
        (strOf "token")).valid = false
    ∧ (validateEIP55Checksum (strOf "0x00c1e515ea9579856304198efb15f525a0bb50f6")
        (strOf "token")).error =
        some (strOf "Invalid EIP-55 checksum for token: should be " ++
          getChecksumAddress (strOf "0x00c1e515ea9579856304198efb15f525a0bb50f6")) := by
  have h := c4_checksum_mismatch_rejected
    (strOf "0x00c1e515ea9579856304198efb15f525a0bb50f6") (strOf "token")
    (by decide) (by decide) (by decide)
  refine ⟨h.1, ?_⟩
  rw [(h.2 (by decide)).1]
  decide

/-- Counterexample to C4 as stated: the mixed-case, wrong-checksum address
0x00c1e515EA9579856304198EFb15f525A0bb50f6 (first upper E of the
canonical form flipped to lower case) is format-valid, non-zero and
differs from its canonical rendering, and is rejected - but through the
caught ethers error, whose message does not contain the expected
checksummed form. -/
theorem c4_counterexample :
    isValidAddressFormat (strOf "0x00c1e515EA9579856304198EFb15f525A0bb50f6") = true
    ∧ strOf "0x00c1e515EA9579856304198EFb15f525A0bb50f6" ≠ zeroAddress
    ∧ strOf "0x00c1e515EA9579856304198EFb15f525A0bb50f6" ≠
        getChecksumAddress (strOf "0x00c1e515EA9579856304198EFb15f525A0bb50f6")
    ∧ (validateEIP55Checksum (strOf "0x00c1e515EA9579856304198EFb15f525A0bb50f6")
        (strOf "address")).valid = false
    ∧ (validateEIP55Checksum (strOf "0x00c1e515EA9579856304198EFb15f525A0bb50f6")
        (strOf "address")).error =
        some (strOf "Invalid address for address: bad address checksum")
    ∧ jincludes (strOf "Invalid address for address: bad address checksum")
        (getChecksumAddress (strOf "0x00c1e515EA9579856304198EFb15f525A0bb50f6")) = false := by
  refine ⟨by decide, by decide, by decide, by decide, by decide, by decide⟩

/-! ## URL-Validator (scripts/utils/url-validator.js) -/

/-- MAX_URL_LENGTH from constants.js. -/
def MAX_URL_LENGTH : Nat := 500

/-- BLOCKED_HOSTS from constants.js: literal hostnames blocked for SSRF
protection. -/
def BLOCKED_HOSTS : List JStr :=
  [strOf "localhost", strOf "127.0.0.1", strOf "0.0.0.0", strOf "::1",
   strOf "169.254.169.254", strOf "metadata.google.internal", strOf "metadata",
   strOf "169.254.169.253"]

/-- The pattern 172 backslash-dot (1[6-9]|2[0-9]|3[0-1]) backslash-dot,
anchored at the start: the private range 172.16.0.0/12. -/
def pat172 (h : JStr) : Bool :=
  match h with
  | '1' :: '7' :: '2' :: '.' :: d1 :: d2 :: '.' :: _ =>
      (d1 == '1' && ( '6' ≤ d2 && d2 ≤ '9')) ||
      (d1 == '2' && ( '0' ≤ d2 && d2 ≤ '9')) ||
      (d1 == '3' && (d2 == '0' || d2 == '1'))
  | _ => false

/-- BLOCKED_IP_PATTERNS from constants.js, as one disjunction: each regex
is anchored at the start of the string (and ::1 also at its end). -/
def matchesBlockedIPPattern (h : JStr) : Bool :=
  (strOf "10.").isPrefixOf h || pat172 h || (strOf "192.168.").isPrefixOf h ||
  (strOf "127.").isPrefixOf h || (strOf "0.").isPrefixOf h ||
  (strOf "169.254.").isPrefixOf h || h == strOf "::1" ||
  (strOf "fe80:").isPrefixOf h || (strOf "fc00:").isPrefixOf h ||
  (strOf "fd00:").isPrefixOf h

/-- isBlockedHost: lower-case the hostname, then check the literal list
and the pattern list. -/
def isBlockedHost (hostname : JStr) : Bool :=
  let lowerHostname := jlower hostname
  decide (lowerHostname ∈ BLOCKED_HOSTS) || matchesBlockedIPPattern lowerHostname

/-- The anchored format pattern https:// followed by one or more
non-whitespace characters. -/
def urlHttpsPattern (s : JStr) : Bool :=
  s.take 8 == strOf "https://" && !(s.drop 8).isEmpty &&
  (s.drop 8).all (fun c => !jsIsSpace c)

/-- validateURLFormat: type, length, newline, whitespace and https-shape
checks, in source order. -/
def validateURLFormat (v : Json) : VResult :=
  match v with
  | .str s =>
      if MAX_URL_LENGTH < s.length then
        { valid := false
          error := some (strOf "URL too long: " ++ natToJStr s.length ++
            strOf " chars (max: " ++ natToJStr MAX_URL_LENGTH ++ strOf ")") }
      else if s.any (fun c => c == '\n' || c == '\r') then
        { valid := false, error := some (strOf "URL contains newline characters") }
      else if s.any jsIsSpace then
        { valid := false, error := some (strOf "URL contains whitespace") }
      else if !urlHttpsPattern s then
        { valid := false
          error := some (strOf "URL must start with https:// and be properly formatted") }
      else { valid := true }
  | _ => { valid := false, error := some (strOf "URL must be a string") }

/-- The parsed pieces of a URL that validateURL reads: protocol, hostname
and port, as the WHATWG URL class exposes them. -/
structure JsURL where
  protocol : JStr
  hostname : JStr
  port : JStr
deriving DecidableEq

/-- The text after the last occurrence of a separator character, or the
whole string when the separator does not occur. -/
def afterLast (ch : Char) (l : JStr) : JStr :=
  (l.reverse.takeWhile (fun c => c != ch)).reverse

/-- WHATWG port handling: an empty port text after the colon is treated
as no port; a digits-only port at most 65535 is kept, serialised without
leading zeros, and the https default 443 is normalised away; anything
else fails the parse. -/
def mkPort (p : JStr) : Option JStr :=
  if p.isEmpty then some []
  else if p.all isDigitChar then
    let n := p.foldl (fun acc c => acc * 10 + (c.toNat - 48)) 0
    if 65535 < n then none
    else if n = 443 then some []
    else some (natToJStr n)
  else none

/-- A model of the WHATWG URL constructor restricted to the inputs
validateURL can pass it: strings that begin with https:// and contain no
whitespace (guaranteed by the preceding validateURLFormat call).  The
authority runs to the first slash, question mark or hash; userinfo before
the last at-sign is dropped; a bracketed IPv6 host keeps its brackets in
the hostname, as the URL class reports it; hostnames are lower-cased. -/
def parseHttpsURL (s : JStr) : Option JsURL :=
  if s.take 8 == strOf "https://" then
    let rest := s.drop 8
    let auth := rest.takeWhile (fun c => c != '/' && c != '?' && c != '#')
    let hostport := if auth.contains '@' then afterLast '@' auth else auth
    if hostport.isEmpty then none
    else if hostport.headD ' ' == '[' then
      let bracket := hostport.takeWhile (fun c => c != ']')
      match hostport.dropWhile (fun c => c != ']') with
      | [] => none
      | _ :: afterBracket =>
          let host := jlower (bracket ++ strOf "]")
          match afterBracket with
          | [] => some ⟨strOf "https:", host, []⟩
          | ':' :: p => (mkPort p).map (fun port => ⟨strOf "https:", host, port⟩)
          | _ => none
    else
      let host := hostport.takeWhile (fun c => c != ':')
      if host.isEmpty then none
      else
        match hostport.dropWhile (fun c => c != ':') with
        | [] => some ⟨strOf "https:", jlower host, []⟩
        | _ :: p => (mkPort p).map (fun port => ⟨strOf "https:", jlower host, port⟩)
  else none

/-- validateURL: format validation, URL parse (a parse failure is caught
and reported), protocol check, blocked-host check, then the
non-standard-port check, in source order. -/
def validateURL (v : Json) (fieldName : JStr) : VResult :=
  let formatCheck := validateURLFormat v
  if formatCheck.valid = false then
    { valid := false, error := some (fieldName ++ strOf ": " ++ formatCheck.error.getD []) }
  else
    match v with
    | .str s =>
        match parseHttpsURL s with
        | none =>
            { valid := false
              error := some (fieldName ++ strOf " is not a valid URL: Invalid URL") }
        | some u =>
            if u.protocol ≠ strOf "https:" then
              { valid := false, error := some (fieldName ++ strOf " must use HTTPS protocol") }
            else if isBlockedHost u.hostname then
              { valid := false
                error := some (fieldName ++
                  strOf " hostname is blocked (potential SSRF): " ++ u.hostname) }
            else if u.port ≠ [] ∧ u.port ≠ strOf "443" then
              { valid := false
                error := some (fieldName ++ strOf " uses non-standard HTTPS port: " ++ u.port) }
            else { valid := true }
    | _ => { valid := false, error := some (fieldName ++ strOf ": URL must be a string") }

/-- One step of the validateURLs loop: skip an absent or null field,
validate a present one, and push its error when invalid. -/
def urlsStep (o : Json) (acc : List (Option JStr)) (field : JStr) : List (Option JStr) :=
  match o.getField field with
  | none => acc
  | some .null => acc
  | some v =>
      let result := validateURL v field
      if result.valid = false then acc ++ [result.error] else acc

/-- validateURLs: validate the named fields of an object, skipping absent
and null fields, aggregating every failing field message into the errors
array; valid exactly when no error accumulated. -/
def validateURLs (o : Json) (urlFields : List JStr) : VResult :=
  let errors := urlFields.foldl (urlsStep o) []
  { valid := errors.isEmpty, errors := some errors }

/-- Lower-casing distributes over string concatenation. -/
theorem jlower_append (a b : JStr) : jlower (a ++ b) = jlower a ++ jlower b :=
  List.map_append jsToLowerChar a b

/-- Every string is a prefix of itself followed by anything. -/
theorem isPrefixOf_self_append (a b : JStr) : a.isPrefixOf (a ++ b) = true := by
  induction a with
  | nil => simp [List.isPrefixOf]
  | cons c t ih => simp [List.isPrefixOf, ih]

/-- A hostname whose lower-casing matches a blocked pattern is blocked. -/
theorem isBlockedHost_of_pattern (h : JStr)
    (hp : matchesBlockedIPPattern (jlower h) = true) : isBlockedHost h = true := by
  simp [isBlockedHost, hp]

/-- Claim C5: isBlockedHost is true, case-insensitively, for the literal
hostnames localhost, 127.0.0.1, 169.254.169.254 and
metadata.google.internal, and for every hostname matching the patterns
10.*, 172.16-31.*, 192.168.*, 127.*, 0.*, 169.254.*, fe80:*, fc00:*,
fd00:* or equal to ::1, and is false for example.com and github.com. -/
theorem c5_isBlockedHost_spec :
    (∀ h : JStr, jlower h = strOf "localhost" → isBlockedHost h = true)
    ∧ (∀ h : JStr, jlower h = strOf "127.0.0.1" → isBlockedHost h = true)
    ∧ (∀ h : JStr, jlower h = strOf "169.254.169.254" → isBlockedHost h = true)
    ∧ (∀ h : JStr, jlower h = strOf "metadata.google.internal" → isBlockedHost h = true)
    ∧ (∀ rest : JStr, isBlockedHost (strOf "10." ++ rest) = true)
    ∧ (∀ d1 d2 : Char, ∀ rest : JStr,
        ((d1 = '1' ∧ d2 ∈ [ '6', '7', '8', '9'])
          ∨ (d1 = '2' ∧ d2 ∈ [ '0', '1', '2', '3', '4', '5', '6', '7', '8', '9'])
          ∨ (d1 = '3' ∧ d2 ∈ [ '0', '1'])) →
        isBlockedHost (strOf "172." ++ d1 :: d2 :: '.' :: rest) = true)
    ∧ (∀ rest : JStr, isBlockedHost (strOf "192.168." ++ rest) = true)
    ∧ (∀ rest : JStr, isBlockedHost (strOf "127." ++ rest) = true)
    ∧ (∀ rest : JStr, isBlockedHost (strOf "0." ++ rest) = true)
    ∧ (∀ rest : JStr, isBlockedHost (strOf "169.254." ++ rest) = true)
    ∧ (∀ rest : JStr, isBlockedHost (strOf "fe80:" ++ rest) = true)
    ∧ (∀ rest : JStr, isBlockedHost (strOf "fc00:" ++ rest) = true)
    ∧ (∀ rest : JStr, isBlockedHost (strOf "fd00:" ++ rest) = true)
    ∧ isBlockedHost (strOf "::1") = true
    ∧ isBlockedHost (strOf "example.com") = false
    ∧ isBlockedHost (strOf "github.com") = false := by
  have hlit : ∀ h : JStr, ∀ lit : JStr, jlower h = lit →
      decide (lit ∈ BLOCKED_HOSTS) = true → isBlockedHost h = true := by
    intro h lit hlow hmem
    have hdef : isBlockedHost h =
        (decide (jlower h ∈ BLOCKED_HOSTS) || matchesBlockedIPPattern (jlower h)) := rfl
    rw [hdef, hlow, hmem]
    simp
  have hpre : ∀ p rest : JStr, jlower p = p →
      matchesBlockedIPPattern (p ++ jlower rest) = true →
      isBlockedHost (p ++ rest) = true := by
    intro p rest hp hmatch
    apply isBlockedHost_of_pattern
    rw [jlower_append, hp]
    exact hmatch
  have h172 : ∀ d1 d2 : Char, ∀ x : JStr,
      jsToLowerChar d1 = d1 → jsToLowerChar d2 = d2 →
      pat172 ( '1' :: '7' :: '2' :: '.' :: d1 :: d2 :: '.' :: jlower x) = true →
      isBlockedHost (strOf "172." ++ d1 :: d2 :: '.' :: x) = true := by
    intro d1 d2 x hd1 hd2 hp
    apply isBlockedHost_of_pattern
    rw [jlower_append, (by decide : jlower (strOf "172.") = strOf "172.")]
    have hl : jlower (d1 :: d2 :: '.' :: x) = d1 :: d2 :: '.' :: jlower x := by
      simp [jlower, List.map_cons, hd1, hd2] at *
      exact (by decide : jsToLowerChar '.' = '.')
    rw [hl]
    have hpat : pat172 (strOf "172." ++ d1 :: d2 :: '.' :: jlower x) = true := by
      show pat172 ( '1' :: '7' :: '2' :: '.' :: d1 :: d2 :: '.' :: jlower x) = true
      exact hp
    simp [matchesBlockedIPPattern, hpat]
  refine ⟨fun h hl => hlit h _ hl (by decide),
          fun h hl => hlit h _ hl (by decide),
          fun h hl => hlit h _ hl (by decide),
          fun h hl => hlit h _ hl (by decide),
          fun rest => hpre _ rest (by decide)
            (by simp [matchesBlockedIPPattern, isPrefixOf_self_append]),
          ?_,
          fun rest => hpre _ rest (by decide)
            (by simp [matchesBlockedIPPattern, isPrefixOf_self_append]),
          fun rest => hpre _ rest (by decide)
            (by simp [matchesBlockedIPPattern, isPrefixOf_self_append]),
          fun rest => hpre _ rest (by decide)
            (by simp [matchesBlockedIPPattern, isPrefixOf_self_append]),
          fun rest => hpre _ rest (by decide)
            (by simp [matchesBlockedIPPattern, isPrefixOf_self_append]),
          fun rest => hpre _ rest (by decide)
            (by simp [matchesBlockedIPPattern, isPrefixOf_self_append]),
          fun rest => hpre _ rest (by decide)
            (by simp [matchesBlockedIPPattern, isPrefixOf_self_append]),
          fun rest => hpre _ rest (by decide)
            (by simp [matchesBlockedIPPattern, isPrefixOf_self_append]),
          by decide, by decide, by decide⟩
  intro d1 d2 rest hcond
  rcases hcond with ⟨h1, h2⟩ | ⟨h1, h2⟩ | ⟨h1, h2⟩
  · subst h1
    simp only [List.mem_cons, List.not_mem_nil, or_false] at h2
    rcases h2 with rfl | rfl | rfl | rfl <;>
      exact h172 _ _ rest (by decide) (by decide) rfl
  · subst h1
    simp only [List.mem_cons, List.not_mem_nil, or_false] at h2
    rcases h2 with rfl | rfl | rfl | rfl | rfl | rfl | rfl | rfl | rfl | rfl <;>
      exact h172 _ _ rest (by decide) (by decide) rfl
  · subst h1
    simp only [List.mem_cons, List.not_mem_nil, or_false] at h2
    rcases h2 with rfl | rfl <;>
      exact h172 _ _ rest (by decide) (by decide) rfl

/-- Witness for C5 at concrete hosts from each family. -/
theorem c5_isBlockedHost_spec_witness :
    isBlockedHost (strOf "LOCALHOST") = true
    ∧ isBlockedHost (strOf "10." ++ strOf "1.2.3") = true
    ∧ isBlockedHost (strOf "172." ++ '3' :: '1' :: '.' :: strOf "0.1") = true
    ∧ isBlockedHost (strOf "192.168." ++ strOf "1.1") = true
    ∧ isBlockedHost (strOf "fe80:" ++ strOf ":1") = true := by
  obtain ⟨h1, _, _, _, h10, h172, h192, _, _, _, hfe, _, _, _, _, _⟩ := c5_isBlockedHost_spec
  exact ⟨h1 _ (by decide), h10 _, h172 '3' '1' _ (by simp), h192 _, hfe _⟩

/-- Every URL the parser model accepts reports the https protocol. -/
theorem parseHttpsURL_protocol (s : JStr) (u : JsURL)
    (h : parseHttpsURL s = some u) : u.protocol = strOf "https:" := by
  unfold parseHttpsURL at h
  dsimp only at h
  repeat' split at h
  all_goals try exact Option.noConfusion h
  all_goals try simp only [Option.map_eq_some'] at h
  all_goals first
    | (injection h with h2; subst h2; rfl)
    | (obtain ⟨q, hq, hu⟩ := h; subst hu; rfl)

/-- Claim C7 (amended): a URL that passes format validation, parses, has
an unblocked hostname and carries an explicit port other than 443 is
rejected with the non-standard-port message; https://example.com/ is
accepted and https://example.com:8080/ is rejected with that message.
(A blocked-host URL with a bad port is rejected by the earlier SSRF check
with a different message; see the counterexample.) -/
theorem c7_nonstandard_port_rejected (s : JStr) (u : JsURL) (fieldName : JStr)
    (hfmt : (validateURLFormat (Json.str s)).valid = true)
    (hparse : parseHttpsURL s = some u)
    (hblocked : isBlockedHost u.hostname = false)
    (hport : u.port ≠ []) (hport443 : u.port ≠ strOf "443") :
    validateURL (Json.str s) fieldName =
      { valid := false
        error := some (fieldName ++ strOf " uses non-standard HTTPS port: " ++ u.port) }
    ∧ validateURL (Json.str (strOf "https://example.com/")) (strOf "URL") = { valid := true }
    ∧ validateURL (Json.str (strOf "https://example.com:8080/")) (strOf "URL") =
        { valid := false
          error := some (strOf "URL uses non-standard HTTPS port: " ++ strOf "8080") } := by
  refine ⟨?_, by decide, by decide⟩
  unfold validateURL
  rw [if_neg (by rw [hfmt]; simp)]
  dsimp only
  rw [hparse]
  dsimp only
  rw [if_neg (by rw [parseHttpsURL_protocol s u hparse]; simp)]
  rw [if_neg (by rw [hblocked]; simp)]
  rw [if_pos ⟨hport, hport443⟩]

/-- Witness for C7 at https://example.com:8080/. -/
theorem c7_nonstandard_port_rejected_witness :
    validateURL (Json.str (strOf "https://example.com:8080/")) (strOf "logoURI") =
      { valid := false
        error := some (strOf "logoURI" ++ strOf " uses non-standard HTTPS port: " ++
          strOf "8080") } :=
  (c7_nonstandard_port_rejected (strOf "https://example.com:8080/")
    ⟨strOf "https:", strOf "example.com", strOf "8080"⟩ (strOf "logoURI")
    (by decide) (by decide) (by decide) (by decide) (by decide)).1

/-- Counterexample to C7 as stated: https://localhost:8080/ passes format
validation and carries the explicit non-default port 8080, but it is
rejected by the earlier blocked-host check, so its error is the SSRF
message and not a non-standard-port message. -/
theorem c7_counterexample :
    (validateURLFormat (Json.str (strOf "https://localhost:8080/"))).valid = true
    ∧ (parseHttpsURL (strOf "https://localhost:8080/")).map JsURL.port =
        some (strOf "8080")
    ∧ (validateURL (Json.str (strOf "https://localhost:8080/")) (strOf "URL")).valid = false
    ∧ (validateURL (Json.str (strOf "https://localhost:8080/")) (strOf "URL")).error =
        some (strOf "URL hostname is blocked (potential SSRF): localhost")
    ∧ jincludes (strOf "URL hostname is blocked (potential SSRF): localhost")
        (strOf "non-standard") = false := by
  refine ⟨by decide, by decide, by decide, by decide, by decide⟩

/-! ## ABI Structural-Validator (scripts/validators/abi-validator.js) -/

/-- VALID_ABI_TYPES from constants.js. -/
def VALID_ABI_TYPES : List JStr :=
  [strOf "function", strOf "constructor", strOf "event", strOf "fallback",
   strOf "receive", strOf "error"]

/-- VALID_STATE_MUTABILITY from constants.js. -/
def VALID_STATE_MUTABILITY : List JStr :=
  [strOf "pure", strOf "view", strOf "nonpayable", strOf "payable"]

/-- ABI_FUNCTION_NAME_PATTERN: the anchored identifier pattern
[a-zA-Z_][a-zA-Z0-9_]* . -/
def abiNamePattern (s : JStr) : Bool :=
  match s with
  | [] => false
  | c :: t => isIdentStartChar c && t.all isWordChar

/-- The character class [a-zA-Z0-9[\](),\s] allowed in ABI type texts. -/
def abiTypeCharOK (c : Char) : Bool :=
  ( 'a' ≤ c && c ≤ 'z') || ( 'A' ≤ c && c ≤ 'Z') || isDigitChar c ||
  c == '[' || c == ']' || c == '(' || c == ')' || c == ',' || jsIsSpace c

/-- The reserved dangerous parameter names. -/
def dangerousNames : List JStr :=
  [strOf "__proto__", strOf "constructor", strOf "prototype"]

/-- Whether a JavaScript value is a non-null object (arrays included, as
typeof reports object for them). -/
def jsNonNullObject : Json → Bool
  | .obj _ => true
  | .arr _ => true
  | _ => false

/-- Whether a field value is present (not undefined). -/
def isUndefinedValue : Option Json → Bool
  | none => true
  | _ => false

/-- Whether a field value is the empty string. -/
def isEmptyStringValue : Option Json → Bool
  | some (.str s) => s.isEmpty
  | _ => false

/-- Integer rendering for JavaScript string interpolation. -/
def intToJStr (n : Int) : JStr :=
  if n < 0 then '-' :: natToJStr n.natAbs else natToJStr n.toNat

mutual
/-- JavaScript string interpolation of a value (ASCII model): strings as
themselves, numbers and booleans rendered, null as the text null, arrays
joined by commas, plain objects as [object Object]. -/
def jsToString : Json → JStr
  | .str s => s
  | .bool b => if b then strOf "true" else strOf "false"
  | .num n => intToJStr n
  | .null => strOf "null"
  | .arr l => jsToStringList l
  | .obj _ => strOf "[object Object]"

/-- Array elements joined by commas; null elements render as empty. -/
def jsToStringList : List Json → JStr
  | [] => []
  | [v] => match v with
      | .null => []
      | v => jsToString v
  | v :: rest =>
      (match v with
        | .null => []
        | v => jsToString v) ++ ',' :: jsToStringList rest
end

/-- A field value interpolated into a message; an absent field prints as
undefined. -/
def fieldText (j : Json) (k : JStr) : JStr :=
  match j.getField k with
  | none => strOf "undefined"
  | some v => jsToString v

/-- A field value that is a truthy (non-empty) string. -/
def truthyStringValue : Option Json → Option JStr
  | some (.str s) => if s.isEmpty then none else some s
  | _ => none

/-- Strict string comparison item.field === text. -/
def isStrField (j : Json) (k v : JStr) : Bool :=
  match j.getField k with
  | some (.str s) => s == v
  | _ => false

/-- A lookup hit inside an object is one of its entry values. -/
theorem lookupLast_mem (entries : List (JStr × Json)) (key : JStr) (v : Json)
    (h : lookupLast entries key = some v) : ∃ k, (k, v) ∈ entries := by
  have gen : ∀ (l : List (JStr × Json)) (acc : Option Json),
      List.foldl (fun acc e => if e.1 = key then some e.2 else acc) acc l = some v →
      (∃ k, (k, v) ∈ l) ∨ acc = some v := by
    intro l
    induction l with
    | nil => intro acc h2; exact Or.inr h2
    | cons e t ih =>
        intro acc h2
        rcases ih _ h2 with ⟨k, hk⟩ | hacc
        · exact Or.inl ⟨k, List.mem_cons_of_mem e hk⟩
        · dsimp only at hacc
          by_cases he : e.1 = key
          · rw [if_pos he] at hacc
            obtain rfl : e.2 = v := Option.some.inj hacc
            exact Or.inl ⟨e.1, by simp⟩
          · rw [if_neg he] at hacc
            exact Or.inr hacc
  rcases gen entries none h with ⟨k, hk⟩ | hbad
  · exact ⟨k, hk⟩
  · exact Option.noConfusion hbad

/-- A field value is structurally smaller than its holder. -/
theorem sizeOf_getField_lt (j : Json) (key : JStr) (v : Json)
    (h : j.getField key = some v) : sizeOf v < sizeOf j := by
  cases j with
  | obj entries =>
      obtain ⟨k, hk⟩ := lookupLast_mem entries key v h
      have h1 : sizeOf (k, v) < sizeOf entries := List.sizeOf_lt_of_mem hk
      have h2 : sizeOf (Json.obj entries) = 1 + sizeOf entries := by simp
      have h3 : sizeOf (k, v) = 1 + sizeOf k + sizeOf v := by simp
      omega
  | null => exact Option.noConfusion h
  | bool b => exact Option.noConfusion h
  | num n => exact Option.noConfusion h
  | str s => exact Option.noConfusion h
  | arr l => exact Option.noConfusion h

mutual
/-- validateABIParameter: object check, type-field check, name type
check, identifier-pattern and reserved-name checks on a present
non-empty name, then the type character check and the recursive
validation of tuple components. -/
def validateABIParameter (param : Json) (context : JStr) : VResult :=
  if jsNonNullObject param = false then
    { valid := false, error := some (context ++ strOf ": parameter must be an object") }
  else
    match param.getField (strOf "type") with
    | some (Json.str t) =>
        if t.isEmpty then
          { valid := false
            error := some (context ++ strOf ": parameter missing \x27type\x27 field") }
        else
          let nameF := param.getField (strOf "name")
          if (!isUndefinedValue nameF && !isEmptyStringValue nameF && !isStringValue nameF) then
            { valid := false
              error := some (context ++ strOf ": parameter name must be a string") }
          else
            match nameF with
            | some (Json.str n) =>
                if n.isEmpty then validateABIParamType param context t
                else if abiNamePattern n = false then
                  { valid := false
                    error := some (context ++ strOf ": parameter name \x27" ++ n ++
                      strOf "\x27 is invalid (must be valid identifier)") }
                else if n ∈ dangerousNames then
                  { valid := false
                    error := some (context ++ strOf ": parameter name \x27" ++ n ++
                      strOf "\x27 is not allowed (security risk)") }
                else validateABIParamType param context t
            | _ => validateABIParamType param context t
    | _ =>
        { valid := false
          error := some (context ++ strOf ": parameter missing \x27type\x27 field") }
termination_by (sizeOf param, 1)

/-- The type character check of validateABIParameter and the recursion
into the components of a tuple-typed parameter. -/
def validateABIParamType (param : Json) (context : JStr) (t : JStr) : VResult :=
  if (!t.isEmpty && t.all abiTypeCharOK) = false then
    { valid := false
      error := some (context ++ strOf ": parameter type \x27" ++ t ++
        strOf "\x27 contains invalid characters") }
  else if (strOf "tuple").isPrefixOf t && jsTruthy (param.getField (strOf "components")) then
    match hc : param.getField (strOf "components") with
    | some (Json.arr comps) => validateABIComponentsLoop comps context 0
    | _ =>
        { valid := false
          error := some (context ++ strOf ": tuple components must be an array") }
  else { valid := true }
termination_by (sizeOf param, 0)
decreasing_by
  all_goals simp_wf
  apply Prod.Lex.left
  have := sizeOf_getField_lt param (strOf "components") (Json.arr comps) hc
  simp at this
  omega

/-- The loop over the components array, with the source message
contexts. -/
def validateABIComponentsLoop (params : List Json) (context : JStr) (i : Nat) : VResult :=
  match params with
  | [] => { valid := true }
  | p :: rest =>
      let r := validateABIParameter p
        (context ++ strOf ".components[" ++ natToJStr i ++ strOf "]")
      if r.valid = false then r else validateABIComponentsLoop rest context (i + 1)
termination_by (sizeOf params, 2)
decreasing_by
  all_goals simp_wf
  all_goals first
    | (apply Prod.Lex.left; omega)
    | (apply Prod.Lex.right; omega)

/-- The loop of validateABIParameters over an inputs or outputs array. -/
def validateABIIndexLoop (params : List Json) (context : JStr) (i : Nat) : VResult :=
  match params with
  | [] => { valid := true }
  | p :: rest =>
      let r := validateABIParameter p (context ++ strOf "[" ++ natToJStr i ++ strOf "]")
      if r.valid = false then r else validateABIIndexLoop rest context (i + 1)
termination_by (sizeOf params, 2)
decreasing_by
  all_goals simp_wf
  all_goals first
    | (apply Prod.Lex.left; omega)
    | (apply Prod.Lex.right; omega)
end

/-- validateABIParameters: the array check, then the indexed loop. -/
def validateABIParameters (params : Json) (context : JStr) : VResult :=
  match params with
  | Json.arr l => validateABIIndexLoop l context 0
  | _ => { valid := false, error := some (context ++ strOf " must be an array") }

/-- The steps of validateABIItem after its type is known to be valid:
name requirement for function, event and error items; inputs validation
(a warning when absent) for function and constructor items; outputs
validation (warning when absent) for function items; the stateMutability
enumeration; inputs validation for event items; accumulated warnings on
success. -/
def validateABIItemSteps (item : Json) (index : Nat) (t : JStr) : VResult :=
  let pre := strOf "ABI item " ++ natToJStr index
  let step1 : Except VResult (List JStr) :=
    if decide (t ∈ [strOf "function", strOf "constructor"]) then
      if jsTruthy (item.getField (strOf "inputs")) = false then
        Except.ok [pre ++ strOf " (" ++ t ++ strOf ") missing \x27inputs\x27 field"]
      else
        match item.getField (strOf "inputs") with
        | some v =>
            let r := validateABIParameters v (pre ++ strOf ".inputs")
            if r.valid = false then Except.error r else Except.ok []
        | none => Except.ok []
    else Except.ok []
  match step1 with
  | Except.error r => r
  | Except.ok w1 =>
    let step2 : Except VResult (List JStr) :=
      if t == strOf "function" then
        if jsTruthy (item.getField (strOf "outputs")) = false then
          Except.ok (w1 ++ [pre ++ strOf " (function " ++ fieldText item (strOf "name") ++
            strOf ") missing \x27outputs\x27 field"])
        else
          match item.getField (strOf "outputs") with
          | some v =>
              let r := validateABIParameters v (pre ++ strOf ".outputs")
              if r.valid = false then Except.error r else Except.ok w1
          | none => Except.ok w1
      else Except.ok w1
    match step2 with
    | Except.error r => r
    | Except.ok w2 =>
      let smF := item.getField (strOf "stateMutability")
      if jsTruthy smF &&
          !(match smF with
            | some (Json.str s) => decide (s ∈ VALID_STATE_MUTABILITY)
            | _ => false) then
        { valid := false
          error := some (pre ++ strOf " has invalid stateMutability: " ++
            (match smF with | some v => jsToString v | none => strOf "undefined")) }
      else
        let step3 : Except VResult (List JStr) :=
          if t == strOf "event" then
            if jsTruthy (item.getField (strOf "inputs")) = false then
              Except.ok (w2 ++ [pre ++ strOf " (event " ++ fieldText item (strOf "name") ++
                strOf ") missing \x27inputs\x27 field"])
            else
              match item.getField (strOf "inputs") with
              | some v =>
                  let r := validateABIParameters v (pre ++ strOf ".inputs")
                  if r.valid = false then Except.error r else Except.ok w2
              | none => Except.ok w2
          else Except.ok w2
        match step3 with
        | Except.error r => r
        | Except.ok w3 => { valid := true, warnings := some w3 }

/-- The name gate of validateABIItem for function, event and error
items, followed by the sequential steps. -/
def validateABIItemTyped (item : Json) (index : Nat) (t : JStr) : VResult :=
  let pre := strOf "ABI item " ++ natToJStr index
  let nameF := item.getField (strOf "name")
  if decide (t ∈ [strOf "function", strOf "event", strOf "error"]) then
    match nameF with
    | some (Json.str n) =>
        if n.isEmpty then
          { valid := false
            error := some (pre ++ strOf " (" ++ t ++ strOf ") missing \x27name\x27 field") }
        else if abiNamePattern n = false then
          { valid := false, error := some (pre ++ strOf " has invalid name: " ++ n) }
        else validateABIItemSteps item index t
    | _ =>
        { valid := false
          error := some (pre ++ strOf " (" ++ t ++ strOf ") missing \x27name\x27 field") }
  else validateABIItemSteps item index t

/-- validateABIItem: object check, type-field check, type enumeration,
then the typed steps. -/
def validateABIItem (item : Json) (index : Nat) : VResult :=
  if jsNonNullObject item = false then
    { valid := false
      error := some (strOf "ABI item " ++ natToJStr index ++ strOf " must be an object") }
  else
    match item.getField (strOf "type") with
    | some (Json.str t) =>
        if t.isEmpty then
          { valid := false
            error := some (strOf "ABI item " ++ natToJStr index ++
              strOf " missing \x27type\x27 field") }
        else if decide (t ∈ VALID_ABI_TYPES) = false then
          { valid := false
            error := some (strOf "ABI item " ++ natToJStr index ++
              strOf " has invalid type: " ++ t) }
        else validateABIItemTyped item index t
    | _ =>
        { valid := false
          error := some (strOf "ABI item " ++ natToJStr index ++
            strOf " missing \x27type\x27 field") }

/-- The loop of validateABI over its items: the first invalid item
short-circuits with its error wrapped in the contract name; warnings
accumulate in order. -/
def validateABIItemsLoop (items : List Json) (contractName : JStr) (i : Nat)
    (acc : List JStr) : Except VResult (List JStr) :=
  match items with
  | [] => Except.ok acc
  | item :: rest =>
      let result := validateABIItem item i
      if result.valid = false then
        Except.error
          { valid := false
            error := some (contractName ++ strOf ": " ++
              (result.error.getD (strOf "undefined"))) }
      else
        let acc2 := match result.warnings with
          | some ws =>
              if ws.length > 0 then
                acc ++ ws.map (fun w => contractName ++ strOf ": " ++ w)
              else acc
          | none => acc
        validateABIItemsLoop rest contractName (i + 1) acc2

/-- validateABI: array check, emptiness check, the per-item loop, and the
interface-heuristic warning when no constructor or function item
occurs. -/
def validateABI (abi : Json) (contractName : JStr) : VResult :=
  match abi with
  | Json.arr items =>
      if items.length = 0 then
        { valid := false
          error := some (strOf "ABI for " ++ contractName ++ strOf " is empty") }
      else
        match validateABIItemsLoop items contractName 0 [] with
        | Except.error r => r
        | Except.ok allWarnings =>
            let hasConstructor := items.any
              (fun item => isStrField item (strOf "type") (strOf "constructor"))
            let hasFunctions := items.any
              (fun item => isStrField item (strOf "type") (strOf "function"))
            let finalWarnings :=
              if !hasConstructor && !hasFunctions then
                allWarnings ++ [contractName ++
                  strOf ": ABI has no constructor or functions (may be interface/library)"]
              else allWarnings
            { valid := true, warnings := some finalWarnings }
  | _ =>
      { valid := false
        error := some (strOf "ABI for " ++ contractName ++ strOf " must be a JSON array") }

mutual
/-- A parameter tree contains a reserved dangerous name in a validated
position: its own name field, or recursively a component of a
tuple-typed parameter. -/
def paramTreeHasDangerousName (p : Json) : Bool :=
  (match p.getField (strOf "name") with
    | some (Json.str n) => decide (n ∈ dangerousNames)
    | _ => false) ||
  (match hc : p.getField (strOf "components") with
    | some (Json.arr comps) =>
        (match p.getField (strOf "type") with
          | some (Json.str t) => (strOf "tuple").isPrefixOf t
          | _ => false) && paramListHasDangerousName comps
    | _ => false)
termination_by (sizeOf p, 1)
decreasing_by
  all_goals simp_wf
  apply Prod.Lex.left
  have := sizeOf_getField_lt p (strOf "components") (Json.arr comps) hc
  simp at this
  omega

/-- Dangerous-name search over a parameter array. -/
def paramListHasDangerousName : List Json → Bool
  | [] => false
  | p :: rest => paramTreeHasDangerousName p || paramListHasDangerousName rest
termination_by l => (sizeOf l, 0)
decreasing_by
  all_goals simp_wf
  all_goals apply Prod.Lex.left
  all_goals omega
end

/-- An ABI item carries a dangerous parameter name in a position its
validation visits: the inputs of function, constructor and event items
and the outputs of function items. -/
def itemHasDangerousParam (item : Json) : Bool :=
  match item.getField (strOf "type") with
  | some (Json.str t) =>
      (decide (t ∈ [strOf "function", strOf "constructor", strOf "event"]) &&
        (match item.getField (strOf "inputs") with
          | some (Json.arr l) => paramListHasDangerousName l
          | _ => false)) ||
      (t == strOf "function" &&
        (match item.getField (strOf "outputs") with
          | some (Json.arr l) => paramListHasDangerousName l
          | _ => false))
  | _ => false

/-- An ABI array carries a dangerous parameter name in a validated
position of some item. -/
def abiHasDangerousParam : Json → Bool
  | Json.arr items => items.any itemHasDangerousParam
  | _ => false

/-- A parameter whose name field is a reserved dangerous name never
validates. -/
theorem param_dangerous_name_invalid (p : Json) (ctx nm : JStr)
    (hname : p.getField (strOf "name") = some (Json.str nm))
    (hdang : nm ∈ dangerousNames) :
    (validateABIParameter p ctx).valid = false := by
  have hne : nm.isEmpty = false := by
    simp only [dangerousNames, List.mem_cons, List.not_mem_nil, or_false] at hdang
    rcases hdang with rfl | rfl | rfl <;> decide
  unfold validateABIParameter
  dsimp only
  repeat' split
  all_goals try rfl
  · rename_i a heq hempt
    rw [hname] at heq
    injection heq with h1
    injection h1 with h2
    subst h2
    rw [hne] at hempt
    exact Bool.noConfusion hempt
  · rename_i a heq hemp hpat hnd
    rw [hname] at heq
    injection heq with h1
    injection h1 with h2
    subst h2
    exact absurd hdang hnd
  · rename_i hforall
    exact (hforall nm hname).elim

/-- A parameter that validates, with a string type field, also passes the
type-and-components stage on that type text. -/
theorem param_valid_gives_type (p : Json) (ctx t : JStr)
    (ht : p.getField (strOf "type") = some (Json.str t))
    (hvalid : (validateABIParameter p ctx).valid = true) :
    (validateABIParamType p ctx t).valid = true := by
  unfold validateABIParameter at hvalid
  dsimp only at hvalid
  repeat' split at hvalid
  all_goals try exact Bool.noConfusion hvalid
  all_goals simp_all only [Option.some.injEq, Json.str.injEq]

/-- If the type-and-components stage passes on a tuple type with an array
of components, the components loop passed. -/
theorem paramType_valid_components (p : Json) (ctx t : JStr) (comps : List Json)
    (hc : p.getField (strOf "components") = some (Json.arr comps))
    (hpre : (strOf "tuple").isPrefixOf t = true)
    (hvalid : (validateABIParamType p ctx t).valid = true) :
    (validateABIComponentsLoop comps ctx 0).valid = true := by
  unfold validateABIParamType at hvalid
  rw [hc, hpre] at hvalid
  split at hvalid
  · exact Bool.noConfusion hvalid
  · simp only [jsTruthy, Bool.true_and, if_true] at hvalid
    exact hvalid

/-- Every element of a components loop that passes validates. -/
theorem componentsLoop_valid_elem (l : List Json) (ctx : JStr) (i : Nat)
    (hvalid : (validateABIComponentsLoop l ctx i).valid = true) :
    ∀ p ∈ l, ∃ c2, (validateABIParameter p c2).valid = true := by
  induction l generalizing i with
  | nil => intro p hp; exact absurd hp (List.not_mem_nil p)
  | cons q rest ih =>
      rw [validateABIComponentsLoop] at hvalid
      intro p hp
      rcases List.mem_cons.mp hp with rfl | hrest
      · by_cases hq : (validateABIParameter p
            (ctx ++ strOf ".components[" ++ natToJStr i ++ strOf "]")).valid = false
        · rw [if_pos hq] at hvalid
          rw [hvalid] at hq
          exact Bool.noConfusion hq
        · exact ⟨_, by simpa using hq⟩
      · by_cases hq : (validateABIParameter q
            (ctx ++ strOf ".components[" ++ natToJStr i ++ strOf "]")).valid = false
        · rw [if_pos hq] at hvalid
          rw [hvalid] at hq
          exact Bool.noConfusion hq
        · rw [if_neg hq] at hvalid
          exact ih (i + 1) hvalid p hrest

/-- Every element of an inputs or outputs loop that passes validates. -/
theorem indexLoop_valid_elem (l : List Json) (ctx : JStr) (i : Nat)
    (hvalid : (validateABIIndexLoop l ctx i).valid = true) :
    ∀ p ∈ l, ∃ c2, (validateABIParameter p c2).valid = true := by
  induction l generalizing i with
  | nil => intro p hp; exact absurd hp (List.not_mem_nil p)
  | cons q rest ih =>
      rw [validateABIIndexLoop] at hvalid
      intro p hp
      rcases List.mem_cons.mp hp with rfl | hrest
      · by_cases hq : (validateABIParameter p
            (ctx ++ strOf "[" ++ natToJStr i ++ strOf "]")).valid = false
        · rw [if_pos hq] at hvalid
          rw [hvalid] at hq
          exact Bool.noConfusion hq
        · exact ⟨_, by simpa using hq⟩
      · by_cases hq : (validateABIParameter q
            (ctx ++ strOf "[" ++ natToJStr i ++ strOf "]")).valid = false
        · rw [if_pos hq] at hvalid
          rw [hvalid] at hq
          exact Bool.noConfusion hq
        · rw [if_neg hq] at hvalid
          exact ih (i + 1) hvalid p hrest

/-- A list is dangerous-name free when each of its trees is. -/
theorem paramList_false_of_forall (l : List Json)
    (h : ∀ p ∈ l, paramTreeHasDangerousName p = false) :
    paramListHasDangerousName l = false := by
  induction l with
  | nil => rw [paramListHasDangerousName]
  | cons q rest ih =>
      rw [paramListHasDangerousName]
      rw [h q (by simp), ih (fun p hp => h p (List.mem_cons_of_mem q hp))]
      rfl

/-- Introduction rule for dangerous-name freeness of one parameter
tree. -/
theorem paramTree_false_intro (p : Json)
    (hname : ∀ nm : JStr, p.getField (strOf "name") = some (Json.str nm) →
      ¬ nm ∈ dangerousNames)
    (hcomps : ∀ (comps : List Json) (t : JStr),
      p.getField (strOf "components") = some (Json.arr comps) →
      p.getField (strOf "type") = some (Json.str t) →
      (strOf "tuple").isPrefixOf t = true →
      paramListHasDangerousName comps = false) :
    paramTreeHasDangerousName p = false := by
  rw [paramTreeHasDangerousName]
  refine Bool.or_eq_false_iff.mpr ⟨?_, ?_⟩
  · split
    · rename_i nm heq
      simpa using hname nm heq
    · rfl
  · split
    · rename_i comps heq
      split
      · rename_i t heqt
        by_cases hpre : (strOf "tuple").isPrefixOf t = true
        · rw [hpre, hcomps comps t heq heqt hpre]
          rfl
        · have hf : (strOf "tuple").isPrefixOf t = false := Bool.eq_false_iff.mpr hpre
          rw [hf]
          rfl
      · rfl
    · rfl

/-- A parameter that validates carries no reserved dangerous name in any
position its validation visits. -/
theorem param_valid_no_dangerous (p0 : Json) (ctx0 : JStr)
    (hvalid0 : (validateABIParameter p0 ctx0).valid = true) :
    paramTreeHasDangerousName p0 = false := by
  have main : ∀ n : Nat, ∀ p : Json, sizeOf p ≤ n → ∀ ctx : JStr,
      (validateABIParameter p ctx).valid = true →
      paramTreeHasDangerousName p = false := by
    intro n
    induction n using Nat.strong_induction_on with
    | _ n ih =>
      intro p hsz ctx hvalid
      apply paramTree_false_intro
      · intro nm hn hd
        rw [param_dangerous_name_invalid p ctx nm hn hd] at hvalid
        exact Bool.noConfusion hvalid
      · intro comps t hcm hty hpre
        have htv := param_valid_gives_type p ctx t hty hvalid
        have hloop := paramType_valid_components p ctx t comps hcm hpre htv
        have helem := componentsLoop_valid_elem comps ctx 0 hloop
        apply paramList_false_of_forall
        intro q hq
        obtain ⟨c2, hqv⟩ := helem q hq
        have hq1 : sizeOf q < sizeOf comps := List.sizeOf_lt_of_mem hq
        have hq2 : sizeOf (Json.arr comps) = 1 + sizeOf comps := by simp
        have hq3 : sizeOf (Json.arr comps) < sizeOf p := sizeOf_getField_lt p _ _ hcm
        exact ih (sizeOf q) (by omega) q le_rfl c2 hqv
  exact main (sizeOf p0) p0 le_rfl ctx0 hvalid0

/-- When the steps of a function or constructor item pass and the inputs
field is an array, the inputs loop passed. -/
theorem itemSteps_inputs_loop (item : Json) (i : Nat) (t : JStr) (l : List Json)
    (hfc : t ∈ [strOf "function", strOf "constructor"])
    (hin : item.getField (strOf "inputs") = some (Json.arr l))
    (hvalid : (validateABIItemSteps item i t).valid = true) :
    (validateABIIndexLoop l (strOf "ABI item " ++ natToJStr i ++ strOf ".inputs") 0).valid
      = true := by
  by_cases hloop : (validateABIIndexLoop l
      (strOf "ABI item " ++ natToJStr i ++ strOf ".inputs") 0).valid = false
  · exfalso
    unfold validateABIItemSteps at hvalid
    dsimp only at hvalid
    rw [hin] at hvalid
    have hP : validateABIParameters (Json.arr l)
        (strOf "ABI item " ++ natToJStr i ++ strOf ".inputs") =
        validateABIIndexLoop l (strOf "ABI item " ++ natToJStr i ++ strOf ".inputs") 0 := rfl
    rw [decide_eq_true hfc] at hvalid
    simp only [jsTruthy, hP, hloop] at hvalid
    simp at hvalid
    rw [← List.append_assoc] at hvalid
    rw [hvalid] at hloop
    exact Bool.noConfusion hloop
  · simpa using hloop

/-- When the steps of a function item pass and the outputs field is an
array, the outputs loop passed. -/
theorem itemSteps_outputs_loop (item : Json) (i : Nat) (l : List Json)
    (hout : item.getField (strOf "outputs") = some (Json.arr l))
    (hvalid : (validateABIItemSteps item i (strOf "function")).valid = true) :
    (validateABIIndexLoop l (strOf "ABI item " ++ natToJStr i ++ strOf ".outputs") 0).valid
      = true := by
  by_cases hloop : (validateABIIndexLoop l
      (strOf "ABI item " ++ natToJStr i ++ strOf ".outputs") 0).valid = false
  case neg => simpa using hloop
  exfalso
  have hP : validateABIParameters (Json.arr l)
      (strOf "ABI item " ++ natToJStr i ++ strOf ".outputs") =
      validateABIIndexLoop l (strOf "ABI item " ++ natToJStr i ++ strOf ".outputs") 0 := rfl
  unfold validateABIItemSteps at hvalid
  dsimp only at hvalid
  rw [hout,
      show (strOf "function" == strOf "function") = true from by decide,
      show (strOf "function" == strOf "event") = false from by decide,
      decide_eq_true
        (show strOf "function" ∈ [strOf "function", strOf "constructor"] from by decide)]
    at hvalid
  rcases hi : item.getField (strOf "inputs") with _ | v
  · rw [hi] at hvalid
    simp only [if_true, if_false, Bool.true_eq_false, Bool.false_eq_true, jsTruthy, hP, hloop, Bool.false_eq_true] at hvalid
  · rw [hi] at hvalid
    cases v with
    | null =>
        simp only [if_true, if_false, Bool.true_eq_false, Bool.false_eq_true, jsTruthy, hP, hloop, Bool.false_eq_true] at hvalid
    | bool b =>
        cases b with
        | false =>
            simp only [if_true, if_false, Bool.true_eq_false, Bool.false_eq_true, jsTruthy, hP, hloop, Bool.false_eq_true] at hvalid
        | true =>
            simp only [if_true, if_false, Bool.true_eq_false, Bool.false_eq_true, jsTruthy, validateABIParameters, hP, hloop,
              Bool.false_eq_true] at hvalid
    | num n =>
        by_cases hn : (n != 0) = true
        · simp only [if_true, if_false, Bool.true_eq_false, Bool.false_eq_true, jsTruthy, hn, validateABIParameters, hP, hloop,
            Bool.false_eq_true] at hvalid
        · have hn2 : (n != 0) = false := Bool.eq_false_iff.mpr hn
          simp only [if_true, if_false, Bool.true_eq_false, Bool.false_eq_true, jsTruthy, hn2, hP, hloop, Bool.false_eq_true] at hvalid
    | str s =>
        by_cases hs : s.isEmpty = true
        · simp only [if_true, if_false, Bool.true_eq_false, Bool.false_eq_true, jsTruthy, hs, hP, hloop, Bool.not_true, Bool.false_eq_true] at hvalid
        · have hs2 : s.isEmpty = false := Bool.eq_false_iff.mpr hs
          simp only [if_true, if_false, Bool.true_eq_false, Bool.false_eq_true, jsTruthy, hs2, validateABIParameters, hP, hloop, Bool.not_false,
            Bool.false_eq_true] at hvalid
    | obj es =>
        simp only [if_true, if_false, Bool.true_eq_false, Bool.false_eq_true, jsTruthy, validateABIParameters, hP, hloop, Bool.false_eq_true] at hvalid
    | arr a =>
        have hPa : validateABIParameters (Json.arr a)
            (strOf "ABI item " ++ natToJStr i ++ strOf ".inputs") =
            validateABIIndexLoop a (strOf "ABI item " ++ natToJStr i ++ strOf ".inputs") 0 := rfl
        by_cases ha : (validateABIIndexLoop a
            (strOf "ABI item " ++ natToJStr i ++ strOf ".inputs") 0).valid = false
        · simp only [if_true, if_false, Bool.true_eq_false, Bool.false_eq_true, jsTruthy, hPa, ha, hP, hloop, Bool.false_eq_true] at hvalid
        · have ha2 : (validateABIIndexLoop a
              (strOf "ABI item " ++ natToJStr i ++ strOf ".inputs") 0).valid = true := by
            simpa using ha
          simp only [if_true, if_false, Bool.true_eq_false, Bool.false_eq_true, jsTruthy, hPa, ha2, hP, hloop, Bool.true_eq_false,
            Bool.false_eq_true] at hvalid

/-- When the steps of an event item pass and the inputs field is an
array, the inputs loop passed. -/
theorem itemSteps_event_inputs_loop (item : Json) (i : Nat) (l : List Json)
    (hin : item.getField (strOf "inputs") = some (Json.arr l))
    (hvalid : (validateABIItemSteps item i (strOf "event")).valid = true) :
    (validateABIIndexLoop l (strOf "ABI item " ++ natToJStr i ++ strOf ".inputs") 0).valid
      = true := by
  by_cases hloop : (validateABIIndexLoop l
      (strOf "ABI item " ++ natToJStr i ++ strOf ".inputs") 0).valid = false
  case neg => simpa using hloop
  exfalso
  have hP : validateABIParameters (Json.arr l)
      (strOf "ABI item " ++ natToJStr i ++ strOf ".inputs") =
      validateABIIndexLoop l (strOf "ABI item " ++ natToJStr i ++ strOf ".inputs") 0 := rfl
  have htr : jsTruthy (some (Json.arr l)) = true := rfl
  unfold validateABIItemSteps at hvalid
  dsimp only at hvalid
  rw [hin,
      show (strOf "event" == strOf "function") = false from by decide,
      show (strOf "event" == strOf "event") = true from by decide,
      decide_eq_false
        (show strOf "event" ∉ [strOf "function", strOf "constructor"] from by decide)]
    at hvalid
  simp only [if_true, if_false, Bool.true_eq_false, Bool.false_eq_true, htr, hP, hloop]
    at hvalid
  split at hvalid
  · exact Bool.noConfusion hvalid
  · rw [hvalid] at hloop
    exact Bool.noConfusion hloop

/-- A typed item that validates passed its sequential steps. -/
theorem itemTyped_valid_steps (item : Json) (i : Nat) (t : JStr)
    (hvalid : (validateABIItemTyped item i t).valid = true) :
    (validateABIItemSteps item i t).valid = true := by
  unfold validateABIItemTyped at hvalid
  dsimp only at hvalid
  repeat' split at hvalid
  all_goals first
    | exact hvalid
    | exact Bool.noConfusion hvalid

/-- An item that validates, with a string type field, passed the typed
stage on that type text. -/
theorem item_valid_gives_typed (item : Json) (i : Nat) (t : JStr)
    (ht : item.getField (strOf "type") = some (Json.str t))
    (hvalid : (validateABIItem item i).valid = true) :
    (validateABIItemTyped item i t).valid = true := by
  unfold validateABIItem at hvalid
  repeat' split at hvalid
  all_goals try exact Bool.noConfusion hvalid
  all_goals simp_all only [Option.some.injEq, Json.str.injEq]

/-- An ABI item that validates carries no dangerous parameter name in
any position its validation visits. -/
theorem item_valid_no_dangerous (item : Json) (i : Nat)
    (hvalid : (validateABIItem item i).valid = true) :
    itemHasDangerousParam item = false := by
  rw [itemHasDangerousParam]
  split
  case h_2 => rfl
  rename_i t heqt
  have htyped := item_valid_gives_typed item i t heqt hvalid
  have hsteps := itemTyped_valid_steps item i t htyped
  refine Bool.or_eq_false_iff.mpr ⟨?_, ?_⟩
  · by_cases hfce : t ∈ [strOf "function", strOf "constructor", strOf "event"]
    · rw [decide_eq_true hfce, Bool.true_and]
      split
      · rename_i l heqin
        have hfce2 := hfce
        simp only [List.mem_cons, List.not_mem_nil, or_false] at hfce2
        have hloopv : (validateABIIndexLoop l
            (strOf "ABI item " ++ natToJStr i ++ strOf ".inputs") 0).valid = true := by
          rcases hfce2 with rfl | rfl | rfl
          · exact itemSteps_inputs_loop item i _ l (by decide) heqin hsteps
          · exact itemSteps_inputs_loop item i _ l (by decide) heqin hsteps
          · exact itemSteps_event_inputs_loop item i l heqin hsteps
        apply paramList_false_of_forall
        intro q hq
        obtain ⟨c2, hqv⟩ := indexLoop_valid_elem l _ 0 hloopv q hq
        exact param_valid_no_dangerous q c2 hqv
      · rfl
    · rw [decide_eq_false hfce, Bool.false_and]
  · by_cases hf : (t == strOf "function") = true
    · rw [hf, Bool.true_and]
      split
      · rename_i l heqout
        have ht2 : t = strOf "function" := by simpa using hf
        subst ht2
        have hloopv := itemSteps_outputs_loop item i l heqout hsteps
        apply paramList_false_of_forall
        intro q hq
        obtain ⟨c2, hqv⟩ := indexLoop_valid_elem l _ 0 hloopv q hq
        exact param_valid_no_dangerous q c2 hqv
      · rfl
    · rw [Bool.eq_false_iff.mpr hf, Bool.false_and]

/-- Appending to a non-empty right part stays non-empty. -/
theorem jstr_append_ne_nil_right (a b : JStr) (hb : b ≠ []) : a ++ b ≠ [] := by
  intro h
  exact hb (List.append_eq_nil.mp h).2

/-- Appending to a non-empty left part stays non-empty. -/
theorem jstr_append_ne_nil_left (a b : JStr) (ha : a ≠ []) : a ++ b ≠ [] := by
  intro h
  exact ha (List.append_eq_nil.mp h).1

/-- When the item loop of validateABI succeeds, every item validated at
some index. -/
theorem abiItemsLoop_valid_items (items : List Json) (name : JStr) (i : Nat)
    (acc w : List JStr) (h : validateABIItemsLoop items name i acc = Except.ok w) :
    ∀ item ∈ items, ∃ j, (validateABIItem item j).valid = true := by
  induction items generalizing i acc w with
  | nil => intro item hmem; exact absurd hmem (List.not_mem_nil _)
  | cons q rest ih =>
      rw [validateABIItemsLoop] at h
      intro item hmem
      by_cases hq : (validateABIItem q i).valid = false
      · rw [if_pos hq] at h
        exact Except.noConfusion h
      · rw [if_neg hq] at h
        rcases List.mem_cons.mp hmem with rfl | hr
        · exact ⟨i, by simpa using hq⟩
        · exact ih _ _ _ h item hr

/-- When the item loop of validateABI fails, the failure record is
invalid with a non-empty wrapped message. -/
theorem abiItemsLoop_error_invalid (items : List Json) (name : JStr) (i : Nat)
    (acc : List JStr) (r : VResult)
    (h : validateABIItemsLoop items name i acc = Except.error r) :
    r.valid = false ∧ ∃ m, r.error = some m ∧ m ≠ [] := by
  induction items generalizing i acc with
  | nil =>
      rw [validateABIItemsLoop] at h
      exact Except.noConfusion h
  | cons q rest ih =>
      rw [validateABIItemsLoop] at h
      by_cases hq : (validateABIItem q i).valid = false
      · rw [if_pos hq] at h
        injection h with h2
        refine ⟨by rw [← h2], ⟨name ++ strOf ": " ++
          ((validateABIItem q i).error.getD (strOf "undefined")), by rw [← h2], ?_⟩⟩
        apply jstr_append_ne_nil_left
        apply jstr_append_ne_nil_right
        decide
      · rw [if_neg hq] at h
        exact ih _ _ h

/-- An ABI that validates carries no dangerous parameter name in any
validated position. -/
theorem abi_valid_no_dangerous (abi : Json) (name : JStr)
    (hvalid : (validateABI abi name).valid = true) :
    abiHasDangerousParam abi = false := by
  cases abi with
  | arr items =>
      unfold validateABI at hvalid
      dsimp only at hvalid
      show items.any itemHasDangerousParam = false
      by_cases hlen : items.length = 0
      · rw [if_pos hlen] at hvalid
        exact Bool.noConfusion hvalid
      · rw [if_neg hlen] at hvalid
        rcases hloop : validateABIItemsLoop items name 0 [] with r | w
        · rw [hloop] at hvalid
          rw [(abiItemsLoop_error_invalid items name 0 [] r hloop).1] at hvalid
          exact Bool.noConfusion hvalid
        · rw [List.any_eq_false]
          intro item hmem
          obtain ⟨j, hj⟩ := abiItemsLoop_valid_items items name 0 [] w hloop item hmem
          rw [item_valid_no_dangerous item j hj]
          exact Bool.noConfusion
  | null => rfl
  | bool b => rfl
  | num n => rfl
  | str s => rfl
  | obj es => rfl

mutual
/-- The containment notion of claim C8 read literally: a dangerous name
anywhere in a parameter tree, recursing through any components array
regardless of the parameter type. -/
def paramAnyDangerousName (p : Json) : Bool :=
  (match p.getField (strOf "name") with
    | some (Json.str n) => decide (n ∈ dangerousNames)
    | _ => false) ||
  (match hc : p.getField (strOf "components") with
    | some (Json.arr comps) => paramListAnyDangerousName comps
    | _ => false)
termination_by (sizeOf p, 1)
decreasing_by
  all_goals simp_wf
  apply Prod.Lex.left
  have := sizeOf_getField_lt p (strOf "components") (Json.arr comps) hc
  simp at this
  omega

/-- Dangerous-name search over a parameter array, claim notion. -/
def paramListAnyDangerousName : List Json → Bool
  | [] => false
  | p :: rest => paramAnyDangerousName p || paramListAnyDangerousName rest
termination_by l => (sizeOf l, 0)
decreasing_by
  all_goals simp_wf
  all_goals apply Prod.Lex.left
  all_goals omega
end

/-- An item carries a dangerous parameter name at any position, claim
notion: inputs or outputs of any item whatever its type. -/
def itemAnyDangerousParam (item : Json) : Bool :=
  (match item.getField (strOf "inputs") with
    | some (Json.arr l) => paramListAnyDangerousName l
    | _ => false) ||
  (match item.getField (strOf "outputs") with
    | some (Json.arr l) => paramListAnyDangerousName l
    | _ => false)

/-- An ABI carries a dangerous parameter name at any position, claim
notion. -/
def abiAnyDangerousParam : Json → Bool
  | Json.arr items => items.any itemAnyDangerousParam
  | _ => false

/-- The function item of the claim C8 example, with a __proto__ input. -/
def protoExampleAbi : Json :=
  Json.arr [Json.obj
    [(strOf "type", Json.str (strOf "function")),
     (strOf "name", Json.str (strOf "f")),
     (strOf "inputs", Json.arr [Json.obj
       [(strOf "name", Json.str (strOf "__proto__")),
        (strOf "type", Json.str (strOf "uint256"))]])]]

/-- Claim C8 (amended): a parameter object with a truthy string type and
a reserved dangerous name is rejected by validateABIParameter with the
not-allowed message; an ABI carrying a dangerous parameter name in a
validated position (inputs of function, constructor or event items,
outputs of function items, recursively through tuple components) never
validates; and the example function item with a __proto__ input is
rejected with a not-allowed message.  (Parameters of fallback, receive
and error items are not validated; see the counterexample.) -/
theorem c8_dangerous_param_rejected :
    (∀ (p : Json) (ctx t nm : JStr),
        jsNonNullObject p = true →
        p.getField (strOf "type") = some (Json.str t) → t ≠ [] →
        p.getField (strOf "name") = some (Json.str nm) → nm ∈ dangerousNames →
        (validateABIParameter p ctx).valid = false
        ∧ (validateABIParameter p ctx).error = some (ctx ++
            strOf ": parameter name \x27" ++ nm ++ strOf "\x27 is not allowed (security risk)"))
    ∧ (∀ (abi : Json) (name : JStr), abiHasDangerousParam abi = true →
        (validateABI abi name).valid = false)
    ∧ (validateABI protoExampleAbi (strOf "Token")).valid = false
    ∧ jincludes ((validateABI protoExampleAbi (strOf "Token")).error.getD [])
        (strOf "not allowed") = true := by
  refine ⟨?_, ?_, ?_, ?_⟩
  · intro p ctx t nm hobj ht htne hname hdang
    have htf : t.isEmpty = false := by
      cases t with
      | nil => exact absurd rfl htne
      | cons c cs => rfl
    simp only [dangerousNames, List.mem_cons, List.not_mem_nil, or_false] at hdang
    rcases hdang with rfl | rfl | rfl
    · constructor <;>
        simp [validateABIParameter, hobj, ht, htf, hname,
          isUndefinedValue, isEmptyStringValue, isStringValue,
          (by decide : (strOf "__proto__").isEmpty = false),
          (by decide : abiNamePattern (strOf "__proto__") = true),
          (by decide : strOf "__proto__" ∈ dangerousNames)]
    · constructor <;>
        simp [validateABIParameter, hobj, ht, htf, hname,
          isUndefinedValue, isEmptyStringValue, isStringValue,
          (by decide : (strOf "constructor").isEmpty = false),
          (by decide : abiNamePattern (strOf "constructor") = true),
          (by decide : strOf "constructor" ∈ dangerousNames)]
    · constructor <;>
        simp [validateABIParameter, hobj, ht, htf, hname,
          isUndefinedValue, isEmptyStringValue, isStringValue,
          (by decide : (strOf "prototype").isEmpty = false),
          (by decide : abiNamePattern (strOf "prototype") = true),
          (by decide : strOf "prototype" ∈ dangerousNames)]
  · intro abi name hd
    by_cases hv : (validateABI abi name).valid = true
    · rw [abi_valid_no_dangerous abi name hv] at hd
      exact Bool.noConfusion hd
    · simpa using hv
  · simp [protoExampleAbi, validateABI, validateABIItemsLoop, validateABIItem,
      validateABIItemTyped, validateABIItemSteps, validateABIParameters,
      validateABIIndexLoop, validateABIParameter, Json.getField, lookupLast,
      jsNonNullObject, jsTruthy, strOf, dangerousNames, abiNamePattern,
      isIdentStartChar, isWordChar, VALID_ABI_TYPES, isUndefinedValue,
      isEmptyStringValue, isStringValue, natToJStr]
  · simp [protoExampleAbi, validateABI, validateABIItemsLoop, validateABIItem,
      validateABIItemTyped, validateABIItemSteps, validateABIParameters,
      validateABIIndexLoop, validateABIParameter, Json.getField, lookupLast,
      jsNonNullObject, jsTruthy, strOf, dangerousNames, abiNamePattern,
      isIdentStartChar, isWordChar, VALID_ABI_TYPES, isUndefinedValue,
      isEmptyStringValue, isStringValue, natToJStr]
    decide

/-- Witness for C8: the dangerous parameter and the example ABI. -/
theorem c8_dangerous_param_rejected_witness :
    (validateABIParameter (Json.obj [(strOf "name", Json.str (strOf "__proto__")),
        (strOf "type", Json.str (strOf "uint256"))]) (strOf "param")).valid = false
    ∧ (validateABI protoExampleAbi (strOf "Token")).valid = false := by
  obtain ⟨ha, hb, _, _⟩ := c8_dangerous_param_rejected
  constructor
  · exact (ha _ (strOf "param") (strOf "uint256") (strOf "__proto__") (by decide)
      (by simp [Json.getField, lookupLast, strOf])
      (by decide)
      (by simp [Json.getField, lookupLast, strOf])
      (by decide)).1
  · apply hb
    simp [protoExampleAbi, abiHasDangerousParam, itemHasDangerousParam,
      paramListHasDangerousName, paramTreeHasDangerousName, Json.getField,
      lookupLast, strOf, dangerousNames]

/-- An error item whose inputs carry a __proto__ parameter. -/
def errExampleItem : Json :=
  Json.obj
    [(strOf "type", Json.str (strOf "error")),
     (strOf "name", Json.str (strOf "E")),
     (strOf "inputs", Json.arr [Json.obj
       [(strOf "name", Json.str (strOf "__proto__")),
        (strOf "type", Json.str (strOf "uint256"))]])]

/-- An ABI holding only that error item. -/
def errExampleAbi : Json := Json.arr [errExampleItem]

/-- Counterexample to C8 as stated: an ABI containing a __proto__
parameter at a position validation never visits - here the inputs of an
error item - is accepted by validateABI, so the claim that any ABI
containing such a parameter at any position is rejected fails. -/
theorem c8_counterexample :
    abiAnyDangerousParam errExampleAbi = true
    ∧ (validateABI errExampleAbi (strOf "Token")).valid = true := by
  constructor
  · simp [errExampleAbi, errExampleItem, abiAnyDangerousParam, itemAnyDangerousParam,
      paramListAnyDangerousName, paramAnyDangerousName, Json.getField, lookupLast,
      strOf, dangerousNames]
  · simp [errExampleAbi, errExampleItem, validateABI, validateABIItemsLoop,
      validateABIItem, validateABIItemTyped, validateABIItemSteps,
      validateABIParameters, validateABIIndexLoop, validateABIParameter,
      Json.getField, lookupLast, jsNonNullObject, jsTruthy, strOf, dangerousNames,
      abiNamePattern, isIdentStartChar, isWordChar, VALID_ABI_TYPES,
      isUndefinedValue, isEmptyStringValue, isStringValue, natToJStr,
      (by decide : isStrField errExampleItem (strOf "type") (strOf "constructor") = false),
      (by decide : isStrField errExampleItem (strOf "type") (strOf "function") = false)]

/-- validateABI returns no error when valid and a non-empty error message
when invalid. -/
theorem validateABI_error_invariant (abi : Json) (name : JStr) :
    ((validateABI abi name).valid = true → (validateABI abi name).error = none)
    ∧ ((validateABI abi name).valid = false →
        ∃ m, (validateABI abi name).error = some m ∧ m ≠ []) := by
  rcases abi with _ | b | n | s | items | flds
  case arr =>
    unfold validateABI
    dsimp only
    by_cases hlen : items.length = 0
    · rw [if_pos hlen]
      exact ⟨fun h => Bool.noConfusion h,
        fun _ => ⟨_, rfl, jstr_append_ne_nil_right _ _ (by decide)⟩⟩
    · rw [if_neg hlen]
      rcases hloop : validateABIItemsLoop items name 0 [] with r | w
      · dsimp only
        obtain ⟨h1, m, h2, h3⟩ := abiItemsLoop_error_invalid items name 0 [] r hloop
        refine ⟨fun h => ?_, fun _ => ⟨m, h2, h3⟩⟩
        rw [h1] at h
        exact Bool.noConfusion h
      · dsimp only
        exact ⟨fun _ => rfl, fun h => Bool.noConfusion h⟩
  all_goals
    exact ⟨fun h => Bool.noConfusion h,
      fun _ => ⟨_, rfl, jstr_append_ne_nil_right _ _ (by decide)⟩⟩

/-- validateURL returns no error when valid and a non-empty error message
when invalid. -/
theorem validateURL_error_invariant (v : Json) (f : JStr) :
    ((validateURL v f).valid = true → (validateURL v f).error = none)
    ∧ ((validateURL v f).valid = false →
        ∃ m, (validateURL v f).error = some m ∧ m ≠ []) := by
  unfold validateURL
  dsimp only
  repeat' split
  all_goals
    refine ⟨fun h => ?_, fun h => ?_⟩
  all_goals
    first
    | rfl
    | exact Bool.noConfusion h
    | exact ⟨_, rfl, jstr_append_ne_nil_right _ _ (by decide)⟩
    | exact ⟨_, rfl,
        jstr_append_ne_nil_left _ _ (jstr_append_ne_nil_right _ _ (by decide))⟩

/-- One validateURLs step only appends elements that are non-empty error
messages. -/
theorem urlsStep_elems (o : Json) (acc : List (Option JStr)) (f : JStr)
    (hacc : ∀ e ∈ acc, ∃ m, e = some m ∧ m ≠ []) :
    ∀ e ∈ urlsStep o acc f, ∃ m, e = some m ∧ m ≠ [] := by
  unfold urlsStep
  split
  · exact hacc
  · exact hacc
  · dsimp only
    split
    next hinv =>
      intro e he
      rcases List.mem_append.mp he with h | h
      · exact hacc e h
      · have he2 := List.mem_singleton.mp h
        subst he2
        obtain ⟨m, hm, hne⟩ := (validateURL_error_invariant _ f).2 hinv
        exact ⟨m, hm, hne⟩
    next => exact hacc

/-- The validateURLs fold only accumulates non-empty error messages. -/
theorem urlsFold_elems (o : Json) (fields : List JStr) (acc : List (Option JStr))
    (hacc : ∀ e ∈ acc, ∃ m, e = some m ∧ m ≠ []) :
    ∀ e ∈ List.foldl (urlsStep o) acc fields, ∃ m, e = some m ∧ m ≠ [] := by
  induction fields generalizing acc with
  | nil => exact hacc
  | cons f rest ih =>
      rw [List.foldl_cons]
      exact ih (urlsStep o acc f) (urlsStep_elems o acc f hacc)

/-- validateURLs never sets the error field, is valid exactly when the
errors array is empty, and every accumulated element is a present,
non-empty message. -/
theorem validateURLs_error_invariant (o : Json) (fields : List JStr) :
    (validateURLs o fields).error = none
    ∧ ((validateURLs o fields).valid = true ↔ (validateURLs o fields).errors = some [])
    ∧ (∀ l, (validateURLs o fields).errors = some l →
        ∀ e ∈ l, ∃ m, e = some m ∧ m ≠ []) := by
  refine ⟨rfl, ?_, ?_⟩
  · unfold validateURLs
    dsimp only
    rcases List.foldl (urlsStep o) [] fields with _ | ⟨e0, tl⟩
    · exact ⟨fun _ => rfl, fun _ => rfl⟩
    · exact ⟨fun h => Bool.noConfusion h, fun h => List.noConfusion (Option.some.inj h)⟩
  · intro l hl
    unfold validateURLs at hl
    dsimp only at hl
    have hfold := Option.some.inj hl
    subst hfold
    exact urlsFold_elems o fields [] (fun e he => nomatch he)

/-- Claim C2: validateABI and validateURL honor the result-record
invariant - valid results carry no error, invalid results carry a present
non-empty error message - while the aggregate validator validateURLs never
sets the error field at all: it is valid exactly when its errors array is
empty, and every element of that array is a present, non-empty message. -/
theorem c2_result_invariant :
    (∀ abi name,
      ((validateABI abi name).valid = true → (validateABI abi name).error = none)
      ∧ ((validateABI abi name).valid = false →
          ∃ m, (validateABI abi name).error = some m ∧ m ≠ []))
    ∧ (∀ v f,
      ((validateURL v f).valid = true → (validateURL v f).error = none)
      ∧ ((validateURL v f).valid = false →
          ∃ m, (validateURL v f).error = some m ∧ m ≠ []))
    ∧ (∀ o fields,
      (validateURLs o fields).error = none
      ∧ ((validateURLs o fields).valid = true ↔ (validateURLs o fields).errors = some [])
      ∧ (∀ l, (validateURLs o fields).errors = some l →
          ∀ e ∈ l, ∃ m, e = some m ∧ m ≠ [])) :=
  ⟨validateABI_error_invariant, validateURL_error_invariant, validateURLs_error_invariant⟩

/-- Witness for C2 at concrete inputs: a non-array ABI yields a non-empty
error message, a malformed URL string yields a non-empty error message,
and validateURLs leaves the error field absent. -/
theorem c2_result_invariant_witness :
    (∃ m, (validateABI Json.null (strOf "Token")).error = some m ∧ m ≠ [])
    ∧ (∃ m, (validateURL (Json.str (strOf "notaurl")) (strOf "logoURI")).error
        = some m ∧ m ≠ [])
    ∧ (validateURLs (Json.obj [(strOf "logoURI", Json.str (strOf "notaurl"))])
        [strOf "logoURI"]).error = none :=
  ⟨(c2_result_invariant.1 Json.null (strOf "Token")).2 (by decide),
   (c2_result_invariant.2.1 (Json.str (strOf "notaurl")) (strOf "logoURI")).2 (by decide),
   (c2_result_invariant.2.2 (Json.obj [(strOf "logoURI", Json.str (strOf "notaurl"))])
     [strOf "logoURI"]).1⟩

/-- Counterexample to C2 as stated: validateURLs is a public validator
that reports failure for a non-URL logoURI field with valid = false, yet
its error field is absent - the failure message lives only in the errors
array, so the claimed invariant (valid = false implies error present)
does not hold for every public validator. -/
theorem c2_counterexample :
    (validateURLs (Json.obj [(strOf "logoURI", Json.str (strOf "notaurl"))])
      [strOf "logoURI"]).valid = false
    ∧ (validateURLs (Json.obj [(strOf "logoURI", Json.str (strOf "notaurl"))])
      [strOf "logoURI"]).error = none := by
  decide

/-- Model of String.prototype.trim: drop the whitespace at both ends. -/
def jsTrim (s : JStr) : JStr :=
  ((s.dropWhile jsIsSpace).reverse.dropWhile jsIsSpace).reverse

/-- Maximum Solidity file size, 500KB, from constants.js. -/
def MAX_SOLIDITY_FILE_SIZE : Nat := 500 * 1024

/-- Regex search: does the predicate match at some position of the
string, i.e. at some suffix. -/
def anySuffix (p : JStr → Bool) : JStr → Bool
  | [] => p []
  | c :: rest => p (c :: rest) || anySuffix p rest

/-- Consume a literal at the front of a string, returning the rest. -/
def matchLit (lit t : JStr) : Option JStr :=
  if lit.isPrefixOf t then some (t.drop lit.length) else none

/-- Match, at the current position, the pattern lit-backslash-s-star-c
used by the dangerous-pattern and security-check regexes: a literal
followed by optional whitespace and the single character c. -/
def litWsCharAt (lit : JStr) (c : Char) (t : JStr) : Bool :=
  match matchLit lit t with
  | none => false
  | some r =>
      match r.dropWhile jsIsSpace with
      | d :: _ => d == c
      | [] => false

/-- Regex test for lit-backslash-s-star-c anywhere in the string. -/
def litWsCharTest (lit : JStr) (c : Char) (s : JStr) : Bool :=
  anySuffix (litWsCharAt lit c) s

/-- Match, at the current position, the pattern
pragma-backslash-s-plus-solidity-backslash-s-plus-[^;]+; of the pragma
directive check: after the keywords, a whitespace character, then a
nonempty semicolon-free run terminated by a semicolon, which (since
whitespace is semicolon-free) amounts to a non-semicolon next character
and a later semicolon. -/
def pragmaMatchAt (t : JStr) : Bool :=
  match matchLit (strOf "pragma") t with
  | none => false
  | some r1 =>
      match r1 with
      | c1 :: r2 =>
          jsIsSpace c1 &&
          (match matchLit (strOf "solidity") (r2.dropWhile jsIsSpace) with
           | none => false
           | some r3 =>
               match r3 with
               | c2 :: u =>
                   jsIsSpace c2 &&
                   (match u with
                    | d :: _ => d ≠ ';' && jincludes u (strOf ";")
                    | [] => false)
               | [] => false)
      | [] => false

/-- Regex test of the pragma solidity directive anywhere in the file. -/
def pragmaTest (s : JStr) : Bool := anySuffix pragmaMatchAt s

/-- Capture group of a pragma solidity match at the current position:
the greedy semicolon-free run after the whitespace; when a semicolon
immediately follows the maximal whitespace run, the regex backtracks and
the capture is the last whitespace character (needing at least two). -/
def pragmaCaptureAt (t : JStr) : Option JStr :=
  match matchLit (strOf "pragma") t with
  | none => none
  | some r1 =>
      match r1 with
      | c1 :: r2 =>
          if jsIsSpace c1 then
            match matchLit (strOf "solidity") (r2.dropWhile jsIsSpace) with
            | none => none
            | some r3 =>
                match r3 with
                | c2 :: u =>
                    if jsIsSpace c2 then
                      let ws := u.takeWhile jsIsSpace
                      let v := u.dropWhile jsIsSpace
                      match v with
                      | d :: _ =>
                          if d = ';' then
                            match ws.getLast? with
                            | some wl => some [wl]
                            | none => none
                          else
                            if jincludes v (strOf ";") then
                              some (v.takeWhile (fun e => e ≠ ';'))
                            else none
                      | [] => none
                    else none
                | [] => none
          else none
      | [] => none

/-- Capture of the leftmost pragma solidity match in the file, as
String.prototype.match returns it, or none when there is no match. -/
def pragmaCapture : JStr → Option JStr
  | [] => pragmaCaptureAt []
  | c :: rest =>
      match pragmaCaptureAt (c :: rest) with
      | some v => some v
      | none => pragmaCapture rest

/-- Match, at the current position, a declaration pattern built by
validateSolidityStructure: each keyword followed by mandatory whitespace,
then the contract name, optional whitespace and an opening brace. -/
def declAt (kws : List JStr) (name : JStr) (t : JStr) : Bool :=
  match kws with
  | [] =>
      match matchLit name t with
      | none => false
      | some r =>
          match r.dropWhile jsIsSpace with
          | d :: _ => d == Char.ofNat 123
          | [] => false
  | kw :: rest =>
      match matchLit kw t with
      | none => false
      | some r =>
          match r with
          | c :: r2 => jsIsSpace c && declAt rest name (r2.dropWhile jsIsSpace)
          | [] => false

/-- The some-over-the-four-patterns declaration check of
validateSolidityStructure: contract, interface, library, or abstract
contract, each followed by the expected name and an opening brace. -/
def hasDeclaration (content name : JStr) : Bool :=
  anySuffix (declAt [strOf "contract"] name) content
  || anySuffix (declAt [strOf "interface"] name) content
  || anySuffix (declAt [strOf "library"] name) content
  || anySuffix (declAt [strOf "abstract", strOf "contract"] name) content

/-- Warnings produced by the six DANGEROUS_SOLIDITY_PATTERNS regexes, in
Object.entries insertion order. -/
def checkDangerousPatterns (content : JStr) : List JStr :=
  (if litWsCharTest (strOf "selfdestruct") '(' content then
    [strOf "Contains selfdestruct - verify this is intentional and safe"] else [])
  ++ (if litWsCharTest (strOf "suicide") '(' content then
    [strOf "Contains suicide (deprecated) - use selfdestruct if needed"] else [])
  ++ (if litWsCharTest (strOf "delegatecall") '(' content then
    [strOf "Contains delegatecall - potential proxy vulnerability, ensure target is trusted"]
    else [])
  ++ (if jincludes content (strOf "tx.origin") then
    [strOf "Uses tx.origin - authentication bypass risk, use msg.sender instead"] else [])
  ++ (if litWsCharTest (strOf "blockhash") '(' content then
    [strOf "Uses blockhash - can be manipulated by miners"] else [])
  ++ (if litWsCharTest (strOf "callcode") '(' content then
    [strOf "Contains callcode (deprecated) - use delegatecall if needed"] else [])

/-- Version warnings pushed after extracting the pragma capture group:
an exact-version warning for a version starting with a digit and holding
no caret or greater-than, and an old-version warning for versions
mentioning 0.4., 0.5. or 0.6. -/
def pragmaVersionWarnings (content : JStr) : List JStr :=
  match pragmaCapture content with
  | none => []
  | some cap =>
      let version := jsTrim cap
      (if (match version with | d :: _ => isDigitChar d | [] => false)
          && !(jincludes version (strOf "^")) && !(jincludes version (strOf ">")) then
        [strOf "Pragma uses exact version (" ++ version ++
          strOf ") - consider using range (e.g., ^0.8.0)"] else [])
      ++ (if jincludes version (strOf "0.4.") || jincludes version (strOf "0.5.")
          || jincludes version (strOf "0.6.") then
        [strOf "Pragma uses old Solidity version (" ++ version ++
          strOf ") - consider upgrading"] else [])

/-- The four additional security checks at the end of
validateSolidityStructure: inline assembly, low-level call, ecrecover
and transfer. -/
def extraSecurityWarnings (content : JStr) : List JStr :=
  (if litWsCharTest (strOf "assembly") (Char.ofNat 123) content then
    [strOf "Contains inline assembly - ensure it\x27s necessary and reviewed"] else [])
  ++ (if litWsCharTest (strOf ".call") '(' content
      || litWsCharTest (strOf ".callcode") '(' content then
    [strOf "Contains low-level call - ensure proper error handling and reentrancy protection"]
    else [])
  ++ (if litWsCharTest (strOf "ecrecover") '(' content then
    [strOf "Uses ecrecover - ensure signature malleability is handled"] else [])
  ++ (if litWsCharTest (strOf "transfer") '(' content then
    [strOf "Uses transfer() - consider using call() with value for better gas handling"]
    else [])

/-- Shallow embedding of validateSolidityStructure: reject empty or
oversized files, warn on a missing SPDX identifier, require a pragma
solidity directive, collect version warnings, require a declaration of
the expected name, and finish with the dangerous-pattern and security
warnings. -/
def validateSolidityStructure (content name : JStr) : VResult :=
  if content.isEmpty || (jsTrim content).isEmpty then
    { valid := false, error := some (strOf "Solidity file is empty") }
  else if MAX_SOLIDITY_FILE_SIZE < content.length then
    { valid := false
      error := some (strOf "Solidity file too large: " ++ natToJStr content.length ++
        strOf " bytes (max: " ++ natToJStr MAX_SOLIDITY_FILE_SIZE ++ strOf ")") }
  else
    let w1 := if jincludes content (strOf "// SPDX-License-Identifier:") then []
      else [strOf "Missing SPDX license identifier"]
    if pragmaTest content = false then
      { valid := false, error := some (strOf "Missing pragma solidity directive") }
    else
      let w2 := w1 ++ pragmaVersionWarnings content
      if hasDeclaration content name = false then
        { valid := false
          error := some (strOf "No declaration found for " ++ name ++
            strOf " (expected contract, interface, library, or abstract contract)") }
      else
        { valid := true
          warnings := some (w2 ++ checkDangerousPatterns content ++
            extraSecurityWarnings content) }

/-- Claim C9: once a Solidity file has passed the emptiness, size and
pragma checks, validateSolidityStructure fails hard with the
No-declaration-found error exactly when no contract, interface, library
or abstract contract declaration of the expected name is present, and is
valid whenever one of the four declaration forms matches. -/
theorem c9_no_declaration_rejected (content name : JStr)
    (h1 : (content.isEmpty || (jsTrim content).isEmpty) = false)
    (h2 : content.length ≤ MAX_SOLIDITY_FILE_SIZE)
    (h3 : pragmaTest content = true) :
    (hasDeclaration content name = false →
      (validateSolidityStructure content name).valid = false
      ∧ (validateSolidityStructure content name).error
        = some (strOf "No declaration found for " ++ name ++
            strOf " (expected contract, interface, library, or abstract contract)"))
    ∧ (hasDeclaration content name = true →
      (validateSolidityStructure content name).valid = true
      ∧ (validateSolidityStructure content name).error = none) := by
  unfold validateSolidityStructure
  rw [h1]
  simp only [Bool.false_eq_true, if_false]
  rw [if_neg (Nat.not_lt.mpr h2)]
  rw [if_neg (show ¬ (pragmaTest content = false) by simp [h3])]
  constructor
  · intro hd
    rw [if_pos hd]
    exact ⟨rfl, rfl⟩
  · intro hd
    rw [if_neg (show ¬ (hasDeclaration content name = false) by simp [hd])]
    exact ⟨rfl, rfl⟩

/-- Solidity source with a pragma directive declaring the contract Other
rather than the expected one. -/
def solOther : JStr := strOf "pragma solidity ^0.8.0; contract Other \x7b\x7d"

/-- Solidity source with a pragma directive declaring the expected
contract. -/
def solExpected : JStr := strOf "pragma solidity ^0.8.0; contract Expected \x7b\x7d"

/-- Witness for C9 at concrete sources: with a pragma present, declaring
Other when Expected is required fails with the No-declaration message,
and declaring Expected passes. -/
theorem c9_no_declaration_rejected_witness :
    ((validateSolidityStructure solOther (strOf "Expected")).valid = false
      ∧ (validateSolidityStructure solOther (strOf "Expected")).error
        = some (strOf "No declaration found for " ++ strOf "Expected" ++
            strOf " (expected contract, interface, library, or abstract contract)"))
    ∧ (validateSolidityStructure solExpected (strOf "Expected")).valid = true :=
  ⟨(c9_no_declaration_rejected solOther (strOf "Expected") (by decide) (by decide)
      (by decide)).1 (by decide),
   ((c9_no_declaration_rejected solExpected (strOf "Expected") (by decide) (by decide)
      (by decide)).2 (by decide)).1⟩

/-- Counterexample to C9 as stated: the source contract Other (with no
pragma directive) contains no declaration of Expected, yet its hard
failure carries the Missing-pragma message, not the No-declaration-found
message the claim promises for every declaration-free source. -/
theorem c9_counterexample :
    (validateSolidityStructure (strOf "contract Other \x7b\x7d") (strOf "Expected")).valid
      = false
    ∧ hasDeclaration (strOf "contract Other \x7b\x7d") (strOf "Expected") = false
    ∧ (validateSolidityStructure (strOf "contract Other \x7b\x7d") (strOf "Expected")).error
      = some (strOf "Missing pragma solidity directive")
    ∧ (validateSolidityStructure (strOf "contract Other \x7b\x7d") (strOf "Expected")).error
      ≠ some (strOf "No declaration found for " ++ strOf "Expected" ++
          strOf " (expected contract, interface, library, or abstract contract)") := by
  decide

/-- Model of validateSafeFilename: a filename must be a string, free of
traversal sequences, path separators, null bytes and control
characters. -/
def validateSafeFilename (filename : Json) : VResult :=
  match filename with
  | Json.str s =>
      if jincludes s (strOf "..") || jincludes s (strOf "/") || jincludes s (strOf "\\") then
        { valid := false, error := some (strOf "Path traversal detected in filename: " ++ s) }
      else if jincludes s (strOf "\x00") then
        { valid := false, error := some (strOf "Filename contains null byte") }
      else if s.any isControlChar then
        { valid := false, error := some (strOf "Filename contains control characters") }
      else { valid := true }
  | _ => { valid := false, error := some (strOf "Filename must be a string") }

/-- Split a string at every forward slash, keeping empty segments; the
accumulator holds the current segment reversed. -/
def splitSlashAux : JStr → JStr → List JStr
  | [], cur => [cur.reverse]
  | d :: rest, cur =>
      if d = '/' then cur.reverse :: splitSlashAux rest []
      else splitSlashAux rest (d :: cur)

/-- Split a string at every forward slash, keeping empty segments. -/
def splitSlash (s : JStr) : List JStr := splitSlashAux s []

/-- Join segments with forward slashes, as Array.prototype.join and the
segment rendering inside the Node path module do. -/
def joinSegs : List JStr → JStr
  | [] => []
  | [s] => s
  | s :: rest => s ++ '/' :: joinSegs rest

/-- One segment of Node normalizeString: skip empty and dot segments,
pop on a dot-dot segment (keeping or emitting dot-dot above the root
only when allowed), push anything else.  The accumulator holds the kept
segments in reverse order. -/
def stepSeg (allowAbove : Bool) (acc : List JStr) (seg : JStr) : List JStr :=
  if seg = [] ∨ seg = strOf "." then acc
  else if seg = strOf ".." then
    match acc with
    | [] => if allowAbove then [seg] else []
    | a :: rest => if a = strOf ".." then (if allowAbove then seg :: acc else acc) else rest
  else seg :: acc

/-- Node normalizeString on a pre-split segment list: the kept segments
in order. -/
def normSegs (allowAbove : Bool) (segs : List JStr) : List JStr :=
  (segs.foldl (stepSeg allowAbove) []).reverse

/-- Absoluteness test of the Node posix path module: a leading forward
slash. -/
def isAbsJ : JStr → Bool
  | c :: _ => c = '/'
  | [] => false

/-- Trailing-separator test of the Node posix path module. -/
def hasTrailingSlash (p : JStr) : Bool :=
  match p.getLast? with
  | some c => c = '/'
  | none => false

/-- Model of path.posix.normalize: collapse empty, dot and dot-dot
segments, preserving absoluteness and a trailing separator. -/
def pathNormalize (p : JStr) : JStr :=
  if p = [] then strOf "."
  else
    let isAbs := isAbsJ p
    let trailing := hasTrailingSlash p
    let body := joinSegs (normSegs (!isAbs) (splitSlash p))
    if body = [] then
      if isAbs then strOf "/" else if trailing then strOf "./" else strOf "."
    else
      let body2 := if trailing then body ++ strOf "/" else body
      if isAbs then '/' :: body2 else body2

/-- Model of path.posix.join: concatenate the nonempty parts with
slashes and normalize, yielding a dot for no parts at all. -/
def jsPathJoin (parts : List JStr) : JStr :=
  match parts.filter (fun p => !p.isEmpty) with
  | [] => strOf "."
  | ps => pathNormalize (joinSegs ps)

/-- Model of path.posix.resolve on a single argument, with the process
working directory passed explicitly: prepend the working directory
unless the path is already absolute, then normalize, allowing dot-dot
above the root only for a relative result. -/
def resolve1 (cwd p : JStr) : JStr :=
  let combined :=
    if isAbsJ p then p ++ strOf "/"
    else
      let tailPart := if p = [] then [] else p ++ strOf "/"
      if cwd = [] then tailPart else cwd ++ strOf "/" ++ tailPart
  let isAbs := if isAbsJ p then true else if cwd = [] then false else isAbsJ cwd
  let body := joinSegs (normSegs (!isAbs) (splitSlash combined))
  if body = [] then (if isAbs then strOf "/" else strOf ".")
  else if isAbs then '/' :: body else body

/-- The string content of a JSON string, the mapping applied to the
parts once validateSafeFilename has established they are strings. -/
def jsonAsStr : Json → JStr
  | Json.str s => s
  | _ => []

/-- The result of the first failing part validation inside safePathJoin,
if any. -/
def firstInvalidPart : List Json → Option VResult
  | [] => none
  | p :: rest =>
      let v := validateSafeFilename p
      if v.valid = false then some v else firstInvalidPart rest

/-- Model of safePathJoin: validate every part, join them onto the base
directory, and require the resolved result to equal the resolved base or
sit strictly below it. -/
def safePathJoin (cwd baseDir : JStr) (parts : List Json) : VResult :=
  match firstInvalidPart parts with
  | some v => v
  | none =>
      let strParts := parts.map jsonAsStr
      let fullPath := jsPathJoin (baseDir :: strParts)
      let resolvedPath := resolve1 cwd fullPath
      let resolvedBase := resolve1 cwd baseDir
      if (resolvedBase ++ strOf "/").isPrefixOf resolvedPath = false
          ∧ resolvedPath ≠ resolvedBase then
        { valid := false
          error := some (strOf "Path escapes base directory: " ++ joinSegs strParts) }
      else { valid := true, path := some fullPath }

/-- The first failing part validation is indeed a failure. -/
theorem firstInvalid_invalid (parts : List Json) (v : VResult)
    (h : firstInvalidPart parts = some v) : v.valid = false := by
  induction parts with
  | nil =>
      rw [firstInvalidPart] at h
      exact Option.noConfusion h
  | cons p rest ih =>
      rw [firstInvalidPart] at h
      split at h
      · exact (Option.some.inj h) ▸ (by assumption)
      · exact ih h

/-- Claim C6: safePathJoin fails whenever the joined path resolves
neither to the resolved base directory nor strictly below it (the
resolved-base-plus-separator prefix test); joining the traversal part
../x onto /base fails, and joining sub and f.txt onto /base succeeds
with a path containing both names. -/
theorem c6_safePathJoin_containment :
    (∀ cwd b (parts : List Json),
      ((resolve1 cwd b ++ strOf "/").isPrefixOf
          (resolve1 cwd (jsPathJoin (b :: parts.map jsonAsStr))) = false
        ∧ resolve1 cwd (jsPathJoin (b :: parts.map jsonAsStr)) ≠ resolve1 cwd b) →
      (safePathJoin cwd b parts).valid = false)
    ∧ (safePathJoin (strOf "/") (strOf "/base") [Json.str (strOf "../x")]).valid = false
    ∧ (safePathJoin (strOf "/") (strOf "/base")
        [Json.str (strOf "sub"), Json.str (strOf "f.txt")]).valid = true
    ∧ (∃ p, (safePathJoin (strOf "/") (strOf "/base")
          [Json.str (strOf "sub"), Json.str (strOf "f.txt")]).path = some p
        ∧ jincludes p (strOf "sub") = true ∧ jincludes p (strOf "f.txt") = true) := by
  refine ⟨?_, by decide, by decide, ⟨strOf "/base/sub/f.txt", by decide, by decide, by decide⟩⟩
  intro cwd b parts hesc
  unfold safePathJoin
  rcases hfi : firstInvalidPart parts with _ | v
  · dsimp only
    rw [if_pos hesc]
  · exact firstInvalid_invalid parts v hfi

/-- Witness for C6 on the escape hypothesis: a base directory that
itself climbs out (/base/..) resolves to /, so joining the innocuous
part f escapes and safePathJoin rejects it. -/
theorem c6_safePathJoin_containment_witness :
    (safePathJoin (strOf "/") (strOf "/base/..") [Json.str (strOf "f")]).valid = false :=
  c6_safePathJoin_containment.1 (strOf "/") (strOf "/base/..") [Json.str (strOf "f")]
    ⟨by decide, by decide⟩

/-- A segment that is nonempty and neither dot nor dot-dot. -/
def plainSeg (s : JStr) : Bool :=
  !s.isEmpty && !(s = strOf "." : Bool) && !(s = strOf ".." : Bool)

/-- Folding plain segments just pushes them all. -/
theorem plainFold (ab : Bool) (S : List JStr) (acc : List JStr)
    (h : ∀ s ∈ S, plainSeg s = true) :
    List.foldl (stepSeg ab) acc S = S.reverse ++ acc := by
  induction S generalizing acc with
  | nil => simp
  | cons x rest ih =>
      have hx := h x (by simp)
      simp only [plainSeg, Bool.and_eq_true, Bool.not_eq_true', decide_eq_false_iff_not,
        List.isEmpty_eq_false, decide_eq_true_eq] at hx
      obtain ⟨⟨hx1, hx2⟩, hx3⟩ := hx
      have hstep : stepSeg ab acc x = x :: acc := by
        unfold stepSeg
        rw [if_neg (by
          intro hor
          rcases hor with h1 | h2
          · exact hx1 h1
          · exact hx2 h2), if_neg hx3]
      rw [List.foldl_cons, hstep, ih (x :: acc) (fun s hs => h s (by simp [hs]))]
      simp

/-- Splitting distributes over a trailing slash: one extra empty
segment. -/
theorem splitSlashAux_snoc_slash (s cur : JStr) :
    splitSlashAux (s ++ strOf "/") cur = splitSlashAux s cur ++ [[]] := by
  induction s generalizing cur with
  | nil => simp [splitSlashAux, strOf]
  | cons d rest ih =>
      rw [List.cons_append, splitSlashAux, splitSlashAux]
      by_cases hd : d = '/'
      · rw [if_pos hd, if_pos hd, ih]
        rfl
      · rw [if_neg hd, if_neg hd, ih]

/-- Splitting a string with no slash yields one segment. -/
theorem splitSlashAux_no_slash_eq (x cur : JStr) (hx : '/' ∉ x) :
    splitSlashAux x cur = [cur.reverse ++ x] := by
  induction x generalizing cur with
  | nil => simp [splitSlashAux]
  | cons d rest ih =>
      have hd : ¬ d = '/' := fun h => hx (by simp [h])
      rw [splitSlashAux, if_neg hd, ih (d :: cur) (fun hm => hx (List.mem_cons_of_mem d hm))]
      simp

/-- Splitting across a slash that follows a slash-free prefix. -/
theorem splitSlashAux_across (x r cur : JStr) (hx : '/' ∉ x) :
    splitSlashAux (x ++ '/' :: r) cur = (cur.reverse ++ x) :: splitSlashAux r [] := by
  induction x generalizing cur with
  | nil => simp [splitSlashAux]
  | cons d rest ih =>
      have hd : ¬ d = '/' := fun h => hx (by simp [h])
      rw [List.cons_append, splitSlashAux, if_neg hd,
        ih (d :: cur) (fun hm => hx (List.mem_cons_of_mem d hm))]
      simp

/-- Splitting inverts joining for a nonempty list of slash-free
segments. -/
theorem splitSlash_joinSegs (S : List JStr) (hS : S ≠ [])
    (h : ∀ x ∈ S, '/' ∉ x) : splitSlash (joinSegs S) = S := by
  induction S with
  | nil => exact absurd rfl hS
  | cons x rest ih =>
      cases rest with
      | nil =>
          show splitSlash (joinSegs [x]) = [x]
          unfold splitSlash
          rw [show joinSegs [x] = x from rfl,
            splitSlashAux_no_slash_eq x [] (h x (by simp))]
          simp
      | cons y ys =>
          show splitSlash (x ++ '/' :: joinSegs (y :: ys)) = x :: y :: ys
          unfold splitSlash
          rw [splitSlashAux_across x _ [] (h x (by simp))]
          rw [show splitSlashAux (joinSegs (y :: ys)) [] = splitSlash (joinSegs (y :: ys)) from rfl]
          rw [ih (by simp) (fun z hz => h z (List.mem_cons_of_mem x hz))]
          simp

/-- Every segment produced by splitting is slash-free. -/
theorem splitSlashAux_no_slash (s cur : JStr) (hc : '/' ∉ cur) :
    ∀ x ∈ splitSlashAux s cur, '/' ∉ x := by
  induction s generalizing cur with
  | nil =>
      intro x hx
      rw [splitSlashAux] at hx
      simp only [List.mem_singleton] at hx
      subst hx
      exact fun hm => hc (List.mem_reverse.mp hm)
  | cons d rest ih =>
      intro x hx
      rw [splitSlashAux] at hx
      by_cases hd : d = '/'
      · rw [if_pos hd] at hx
        rcases List.mem_cons.mp hx with rfl | hx2
        · exact fun hm => hc (List.mem_reverse.mp hm)
        · exact ih [] (by simp) x hx2
      · rw [if_neg hd] at hx
        refine ih (d :: cur) ?_ x hx
        intro hm
        rcases List.mem_cons.mp hm with h1 | h2
        · exact hd h1.symm
        · exact hc h2

/-- Segments kept by the root-anchored normalization are plain and
slash-free whenever the input segments are slash-free. -/
theorem stepSegFold_plain (segs : List JStr) (acc : List JStr)
    (hacc : ∀ s ∈ acc, plainSeg s = true ∧ '/' ∉ s)
    (hsegs : ∀ s ∈ segs, '/' ∉ s) :
    ∀ s ∈ List.foldl (stepSeg false) acc segs, plainSeg s = true ∧ '/' ∉ s := by
  induction segs generalizing acc with
  | nil => exact hacc
  | cons x rest ih =>
      rw [List.foldl_cons]
      refine ih (stepSeg false acc x) ?_ (fun s hs => hsegs s (List.mem_cons_of_mem x hs))
      unfold stepSeg
      split
      · exact hacc
      · split
        · rcases hax : acc with _ | ⟨a, r⟩
          · dsimp only
            intro s hs
            exact absurd hs (by simp)
          · dsimp only
            split
            · intro s hs
              exact hacc s (hax ▸ hs)
            · intro s hs
              exact hacc s (hax ▸ List.mem_cons_of_mem a hs)
        · intro s hs
          rcases List.mem_cons.mp hs with rfl | hs2
          · next h1 h2 =>
              refine ⟨?_, hsegs s (by simp)⟩
              simp only [plainSeg, Bool.and_eq_true, Bool.not_eq_true', decide_eq_false_iff_not,
                List.isEmpty_eq_false]
              exact ⟨⟨fun he => h1 (Or.inl he), fun he => h1 (Or.inr he)⟩, h2⟩
          · exact hacc s hs2

/-- Splitting after appending a slash appends an empty segment. -/
theorem splitSlash_snoc (s : JStr) :
    splitSlash (s ++ strOf "/") = splitSlash s ++ [[]] :=
  splitSlashAux_snoc_slash s []

/-- Splitting after a leading slash prepends an empty segment. -/
theorem splitSlash_cons_slash (x : JStr) :
    splitSlash (('/' :: x : JStr)) = [] :: splitSlash x := by
  rw [splitSlash, splitSlashAux, if_pos rfl]
  rfl

/-- An empty segment is skipped by the normalization step. -/
theorem stepSeg_empty (ab : Bool) (acc : List JStr) : stepSeg ab acc [] = acc := by
  unfold stepSeg
  rw [if_pos (Or.inl rfl)]

/-- A trailing empty segment does not change the normalization. -/
theorem normSegs_snoc_empty (ab : Bool) (segs : List JStr) :
    normSegs ab (segs ++ [[]]) = normSegs ab segs := by
  unfold normSegs
  rw [List.foldl_append, List.foldl_cons, stepSeg_empty, List.foldl_nil]

/-- A leading empty segment does not change the normalization. -/
theorem normSegs_cons_empty (ab : Bool) (segs : List JStr) :
    normSegs ab ([] :: segs) = normSegs ab segs := by
  unfold normSegs
  rw [List.foldl_cons, stepSeg_empty]

/-- Normalizing plain segments keeps them unchanged. -/
theorem normSegs_plain (ab : Bool) (S : List JStr)
    (h : ∀ s ∈ S, plainSeg s = true) : normSegs ab S = S := by
  unfold normSegs
  rw [plainFold ab S [] h]
  simp

/-- Joining plain segments yields the empty string only for the empty
list. -/
theorem joinSegs_eq_nil (S : List JStr) (h : joinSegs S = [])
    (hp : ∀ s ∈ S, plainSeg s = true) : S = [] := by
  cases S with
  | nil => rfl
  | cons x rest =>
      cases rest with
      | nil =>
          exfalso
          have hx := hp x (by simp)
          rw [show joinSegs [x] = x from rfl] at h
          subst h
          simp [plainSeg] at hx
      | cons y ys =>
          exfalso
          rw [show joinSegs (x :: y :: ys) = x ++ '/' :: joinSegs (y :: ys) from rfl] at h
          exact absurd h (by simp)

/-- Two absolute paths whose slash-terminated forms normalize to the
same segments resolve identically. -/
theorem resolve1_abs_eq (cwd x y : JStr) (hx : isAbsJ x = true) (hy : isAbsJ y = true)
    (h : normSegs false (splitSlash (x ++ strOf "/"))
      = normSegs false (splitSlash (y ++ strOf "/"))) :
    resolve1 cwd x = resolve1 cwd y := by
  unfold resolve1
  simp only [hx, hy, if_true, Bool.not_true]
  rw [h]

/-- Resolving the normalization of an absolute path gives the same
result as resolving the path itself. -/
theorem resolve1_pathNormalize (cwd b : JStr) (hb : isAbsJ b = true) :
    resolve1 cwd (pathNormalize b) = resolve1 cwd b := by
  have habs : ∃ t, b = '/' :: t := by
    rcases b with _ | ⟨c, t⟩
    · exact absurd hb (by simp [isAbsJ])
    · have hc : c = '/' := by simpa [isAbsJ] using hb
      exact ⟨t, by rw [hc]⟩
  obtain ⟨t, rfl⟩ := habs
  have hsf : ∀ x ∈ splitSlash ('/' :: t), '/' ∉ x :=
    splitSlashAux_no_slash ('/' :: t) [] (by simp)
  have hSplain : ∀ s ∈ normSegs false (splitSlash ('/' :: t)),
      plainSeg s = true ∧ '/' ∉ s := by
    intro s hs
    rw [normSegs] at hs
    exact stepSegFold_plain (splitSlash ('/' :: t)) [] (by simp) hsf s (List.mem_reverse.mp hs)
  have hnorm_b : normSegs false (splitSlash (('/' :: t : JStr) ++ strOf "/"))
      = normSegs false (splitSlash ('/' :: t)) := by
    rw [splitSlash_snoc, normSegs_snoc_empty]
  by_cases hbody : joinSegs (normSegs false (splitSlash ('/' :: t))) = []
  · have hS : normSegs false (splitSlash ('/' :: t)) = [] :=
      joinSegs_eq_nil _ hbody (fun s hs => (hSplain s hs).1)
    have hpn : pathNormalize ('/' :: t) = strOf "/" := by
      unfold pathNormalize
      rw [if_neg (by simp : ¬('/' :: t : JStr) = [])]
      dsimp only
      simp only [show isAbsJ ('/' :: t) = true from rfl, Bool.not_true, eq_self_iff_true,
        if_true]
      rw [if_pos hbody]
    rw [hpn]
    apply resolve1_abs_eq cwd _ _ (by decide) hb
    rw [hnorm_b, hS]
    decide
  · have hSne : normSegs false (splitSlash ('/' :: t)) ≠ [] := by
      intro h
      exact hbody (by rw [h]; rfl)
    have hplainS : ∀ s ∈ normSegs false (splitSlash ('/' :: t)), plainSeg s = true :=
      fun s hs => (hSplain s hs).1
    have hsplitS : splitSlash (joinSegs (normSegs false (splitSlash ('/' :: t))))
        = normSegs false (splitSlash ('/' :: t)) :=
      splitSlash_joinSegs _ hSne (fun x hx => (hSplain x hx).2)
    have hkey : ∀ b2, (b2 = joinSegs (normSegs false (splitSlash ('/' :: t)))
          ∨ b2 = joinSegs (normSegs false (splitSlash ('/' :: t))) ++ strOf "/") →
        normSegs false (splitSlash (('/' :: b2 : JStr) ++ strOf "/"))
          = normSegs false (splitSlash ('/' :: t)) := by
      intro b2 hb2
      rw [show (('/' :: b2 : JStr) ++ strOf "/") = '/' :: (b2 ++ strOf "/") from rfl,
        splitSlash_cons_slash]
      rcases hb2 with rfl | rfl
      · rw [splitSlash_snoc, hsplitS, normSegs_cons_empty, normSegs_snoc_empty,
          normSegs_plain false _ hplainS]
      · rw [splitSlash_snoc, splitSlash_snoc, hsplitS, normSegs_cons_empty,
          normSegs_snoc_empty, normSegs_snoc_empty, normSegs_plain false _ hplainS]
    have hpn : ∃ b2, pathNormalize ('/' :: t) = '/' :: b2
        ∧ (b2 = joinSegs (normSegs false (splitSlash ('/' :: t)))
          ∨ b2 = joinSegs (normSegs false (splitSlash ('/' :: t))) ++ strOf "/") := by
      unfold pathNormalize
      rw [if_neg (by simp : ¬('/' :: t : JStr) = [])]
      dsimp only
      simp only [show isAbsJ ('/' :: t) = true from rfl, Bool.not_true, eq_self_iff_true,
        if_true]
      rw [if_neg hbody]
      by_cases htr : hasTrailingSlash ('/' :: t) = true
      · rw [if_pos htr]
        exact ⟨_, rfl, Or.inr rfl⟩
      · rw [if_neg htr]
        exact ⟨_, rfl, Or.inl rfl⟩
    obtain ⟨b2, hpn2, hb2⟩ := hpn
    rw [hpn2]
    refine resolve1_abs_eq cwd _ _ ?_ hb ?_
    · rfl
    · rw [hkey b2 hb2, hnorm_b]

/-- Claim C10: validateSafeFilename accepts the empty string, and
joining the empty part onto an absolute base directory succeeds; the
constructed path is the posix join of the base with the empty string,
which is the normalized base directory rather than the base directory
string itself. -/
theorem c10_empty_filename_joins_base (cwd b : JStr) (hb : isAbsJ b = true) :
    (validateSafeFilename (Json.str [])).valid = true
    ∧ (safePathJoin cwd b [Json.str []]).valid = true
    ∧ (safePathJoin cwd b [Json.str []]).path = some (jsPathJoin [b, []])
    ∧ jsPathJoin [b, []] = pathNormalize b := by
  have hbe : b.isEmpty = false := by
    rcases b with _ | ⟨c, t⟩
    · exact absurd hb (by simp [isAbsJ])
    · rfl
  have hfull : jsPathJoin [b, []] = pathNormalize b := by
    unfold jsPathJoin
    have hfil : List.filter (fun p => !p.isEmpty) [b, ([] : JStr)] = [b] := by
      simp [List.filter_cons, hbe]
    rw [hfil]
    rfl
  have hres : resolve1 cwd (jsPathJoin [b, []]) = resolve1 cwd b := by
    rw [hfull]
    exact resolve1_pathNormalize cwd b hb
  have hmain : safePathJoin cwd b [Json.str []]
      = { valid := true, path := some (jsPathJoin [b, []]) } := by
    unfold safePathJoin
    rw [show firstInvalidPart [Json.str []] = none from by decide]
    dsimp only
    rw [if_neg (fun hcond => hcond.2 hres)]
    rfl
  exact ⟨by decide, by rw [hmain], by rw [hmain], hfull⟩

/-- Witness for C10 at a concrete absolute base: joining the empty part
onto /base succeeds. -/
theorem c10_empty_filename_joins_base_witness :
    isAbsJ (strOf "/base") = true
    ∧ (safePathJoin (strOf "/") (strOf "/base") [Json.str []]).valid = true :=
  ⟨by decide,
   (c10_empty_filename_joins_base (strOf "/") (strOf "/base") (by decide)).2.1⟩

/-- Counterexample to C10 as stated: with the unnormalized base /a//b,
joining the empty filename succeeds but the constructed path is the
normalized /a/b, not the base directory string itself. -/
theorem c10_counterexample :
    (safePathJoin (strOf "/") (strOf "/a//b") [Json.str []]).valid = true
    ∧ (safePathJoin (strOf "/") (strOf "/a//b") [Json.str []]).path = some (strOf "/a/b")
    ∧ (strOf "/a/b" : JStr) ≠ strOf "/a//b" := by
  decide
